import Mathlib

/-!
# Verification of the LTX library (superfly/ltx)

A shallow embedding, in Lean 4, of the core of the LTX ("Lite Transaction")
file-format library: primitive codecs, the CRC64-ISO checksum engine, the
encoder and decoder state machines, the `FileSpec` round-trip model and the
compactor.  Every definition is translated from the Go source of the
repository (`ltx.go`, `decoder.go`, `encoder.go`, `file_spec.go`,
`compactor.go`); byte streams are modelled as `List Nat` with each element a
byte value, machine integers as `Nat` with explicit truncation where the Go
code truncates, and fallible methods return their mutated receiver together
with a Go-style error value.

The theorems at the end of the file settle the claims of the specification
against this embedding.
-/

namespace Ltx

/-- A byte stream.  Elements are byte values `< 256`; every consumer reduces
an element modulo 256 exactly where the Go code casts to `byte`. -/
abbrev Bytes := List Nat

/-- `2^64 - 1`, the all-ones 64-bit word. -/
def mask64 : Nat := 2 ^ 64 - 1

/-- 64-bit bitwise complement (`^x` on a Go `uint64`). -/
def comp64 (x : Nat) : Nat := x ^^^ mask64

/-- The CRC64-ISO generator polynomial in reversed bit order, exactly the
constant `crc64.ISO` used by Go's `hash/crc64` via `crc64.MakeTable`. -/
def isoPoly : Nat := 0xD800000000000000

/-- One bit-step of the reflected CRC64 division: shift right and conditionally
fold in the polynomial.  This is the inner loop of `crc64.MakeTable`. -/
def crc64round (c : Nat) : Nat :=
  if c &&& 1 = 1 then (c >>> 1) ^^^ isoPoly else c >>> 1

/-- The CRC64-ISO table entry for index `i` (`crc64.MakeTable(crc64.ISO)[i]`):
eight bit-steps applied to the index. -/
def crc64tab (i : Nat) : Nat :=
  crc64round (crc64round (crc64round (crc64round
    (crc64round (crc64round (crc64round (crc64round i)))))))

/-- One byte-step of the CRC64 update loop from Go's `hash/crc64`:
`crc = tab[byte(crc)^v] ^ (crc >> 8)`. -/
def crc64step (crc v : Nat) : Nat :=
  crc64tab ((crc &&& 255) ^^^ (v % 256)) ^^^ (crc >>> 8)

/-- Forces a `Nat` to a numeral before passing it on (the `match` splits on
the constructor), keeping kernel evaluation of the CRC loop iterative. -/
def natSeq (n : Nat) (k : Nat → Nat) : Nat :=
  match n with
  | 0 => k 0
  | m + 1 => k (m + 1)

/-- The byte loop of Go's `crc64.update`: a left fold of `crc64step`, with
the accumulator forced to a numeral at every step; `crcLoop_eq_foldl` below
identifies it with `List.foldl crc64step`. -/
def crcLoop : Bytes → Nat → Nat
  | [], crc => crc
  | v :: rest, crc => natSeq (crc64step crc v) (crcLoop rest)

/-- Go's `crc64.update(crc, tab, p)`: complement, run the byte loop, and
complement again.  `crcUpd h.crc p` is the hasher state after `h.Write(p)`;
a fresh hasher (`crc64.New`) starts at state `0` and `Sum64` returns the
state itself. -/
def crcUpd (crc : Nat) (p : Bytes) : Nat :=
  comp64 (crcLoop p (comp64 crc))

/-- CRC64-ISO of a whole byte sequence (a fresh hasher fed `p`). -/
def crc64 (p : Bytes) : Nat := crcUpd 0 p

/-- `ChecksumFlag`: the most significant bit that every non-zero LTX checksum
carries (`1 << 63`). -/
def ChecksumFlag : Nat := 1 <<< 63

/-- `HeaderFlagMask`: the mask of recognised header flags (`0x00000001`). -/
def HeaderFlagMask : Nat := 0x00000001

/-- `HeaderFlagCompressLZ4`: header flag bit 0. -/
def HeaderFlagCompressLZ4 : Nat := 0x00000001

/-- Size constants from `ltx.go`. -/
def HeaderSize : Nat := 100

/-- `PageHeaderSize`: a page header is a 4-byte big-endian page number. -/
def PageHeaderSize : Nat := 4

/-- `TrailerSize`: the trailer is two 8-byte checksums. -/
def TrailerSize : Nat := 16

/-- `ChecksumSize`. -/
def ChecksumSize : Nat := 8

/-- `TrailerChecksumOffset = TrailerSize - ChecksumSize`. -/
def TrailerChecksumOffset : Nat := TrailerSize - ChecksumSize

/-- `PENDING_BYTE`: the SQLite pending-byte offset `0x40000000`. -/
def PENDING_BYTE : Nat := 0x40000000

/-- `LockPgno(pageSize)`: the page number holding the pending byte,
`PENDING_BYTE / pageSize + 1`. -/
def LockPgno (pageSize : Nat) : Nat := PENDING_BYTE / pageSize + 1

/-- The four state-machine states used by both the encoder and the decoder
(the Go source stores them as the strings "header", "page", "close",
"closed"). -/
inductive StateTag where
  | header
  | page
  | close
  | closed
deriving DecidableEq, Repr, Inhabited

/-- Context wrapper tags: each constructor stands for one `fmt.Errorf("...: %w", err)`
(or `"...: %s"`) wrapping site in the source. -/
inductive WrapTag where
  | unmarshalHeader
  | unmarshalTrailer
  | unmarshalPageHeader
  | validateTrailer
  | writeHeaderCompact
  | readPageHeaderInput (i : Nat)
  | copyPage (pgno : Nat)
  | closeReader (i : Nat)
  | closeEncoder
  | encodeHeaderFS
  | encodePageFS (i : Nat)
  | closeEncoderFS
  | readHeaderFS
  | readPageFS
  | closeReaderFS
deriving DecidableEq, Repr

/-- Go-style error values.  Each constructor corresponds to one distinct
error produced by the embedded code (sentinel errors, `fmt.Errorf` messages
with their numeric arguments, and the `io` package errors the code compares
against). -/
inductive Err where
  | eof                                         -- io.EOF
  | unexpectedEOF                               -- io.ErrUnexpectedEOF
  | shortBuffer                                 -- io.ErrShortBuffer
  | invalidFile                                 -- "invalid LTX file"
  | decoderClosed                               -- ErrDecoderClosed
  | encoderClosed                               -- ErrEncoderClosed
  | checksumMismatch                            -- ErrChecksumMismatch
  | cannotClose (cur : StateTag)                -- "cannot close, expected %s"
  | cannotEncodeHeaderFrame (cur : StateTag)    -- "cannot encode header frame, expected %s"
  | cannotEncodePageHeader (cur : StateTag)     -- "cannot encode page header, expected %s"
  | cannotReadPageHeader (cur : StateTag)       -- "cannot read page header, expected %s"
  | pgnoOutOfBounds (pgno commit : Nat)         -- "page number %d out-of-bounds for commit size %d"
  | pgnoRequired                                -- "page number required"
  | invalidPageBufferSize (got want : Nat)      -- "invalid page buffer size: %d, expecting %d"
  | cannotEncodeLockPage (pgno : Nat)           -- "cannot encode lock page: pgno=%d"
  | snapshotMustStartWithPage1                  -- "snapshot transaction file must start with page number 1"
  | nonseqSnapshotSkipLock (prev pgno : Nat)    -- "nonsequential page numbers in snapshot transaction (skip lock page): %d,%d"
  | nonseqSnapshot (prev pgno : Nat)            -- "nonsequential page numbers in snapshot transaction: %d,%d"
  | outOfOrderPages (prev pgno : Nat)           -- "out-of-order page numbers: %d,%d"
  | invalidVersion                              -- "invalid version"
  | invalidFlags (flags : Nat)                  -- "invalid flags: 0x%08x"
  | invalidPageSize (sz : Nat)                  -- "invalid page size: %d"
  | minTXIDRequired                             -- "minimum transaction id required"
  | maxTXIDRequired                             -- "maximum transaction id required"
  | txidOutOfOrder (mn mx : Nat)                -- "transaction ids out of order: (%d,%d)"
  | walOffsetNegative (v : Nat)                 -- "wal offset cannot be negative: %d"
  | walSizeNegative (v : Nat)                   -- "wal size cannot be negative: %d"
  | walOffsetRequiredIfSalt                     -- "wal offset required if salt exists"
  | walSizeRequiredIfSalt                       -- "wal size required if salt exists"
  | walSizeRequiredIfOffset                     -- "wal size required if wal offset exists"
  | walOffsetRequiredIfSize                     -- "wal offset required if wal size exists"
  | preApplyNotAllowedOnSnapshot                -- "pre-apply checksum must be zero on snapshots"
  | preApplyRequired                            -- "pre-apply checksum required on non-snapshot files"
  | invalidPreApplyFormat                       -- "invalid pre-apply checksum format"
  | postApplyRequired                           -- "post-apply checksum required"
  | invalidPostApplyFormat                      -- "invalid post-apply checksum format"
  | fileChecksumRequired                        -- "file checksum required"
  | invalidFileChecksumFormat                   -- "invalid file checksum format"
  | postApplyMustBeEmptyForZeroLength           -- "post-apply checksum must be empty for zero-length database"
  | contextCanceled                             -- context.Canceled (what ctx.Err() returns
                                                -- after cancellation)
  | atLeastOneInputRequired                     -- "at least one input reader required"
  | mismatchedPageSizes (a b : Nat)             -- "input files have mismatched page sizes: %d != %d"
  | nonContiguousTXIDs (amin amax bmin bmax : Nat)
      -- "non-contiguous transaction ids in input files: (%s,%s) -> (%s,%s)"
  | fuelExhausted                               -- model artifact: loop fuel ran out (never reached
                                                -- by any run in this file; the fuels chosen below
                                                -- strictly dominate the loops' consumption)
  | wrap (tag : WrapTag) (e : Err)              -- fmt.Errorf("<ctx>: %w", e)
deriving DecidableEq, Repr

/-- Big-endian encoding of a 32-bit value (`binary.BigEndian.PutUint32`);
byte extraction `byte(v >> k)` is `v / 2^k % 256`. -/
def be32 (v : Nat) : Bytes :=
  [v / 2 ^ 24 % 256, v / 2 ^ 16 % 256, v / 2 ^ 8 % 256, v % 256]

/-- Big-endian encoding of a 64-bit value (`binary.BigEndian.PutUint64`). -/
def be64 (v : Nat) : Bytes :=
  [v / 2 ^ 56 % 256, v / 2 ^ 48 % 256, v / 2 ^ 40 % 256, v / 2 ^ 32 % 256,
   v / 2 ^ 24 % 256, v / 2 ^ 16 % 256, v / 2 ^ 8 % 256, v % 256]

/-- Byte `i` of a buffer (buffers handed to the readers below always have
been length-checked first). -/
def byteAt (b : Bytes) (i : Nat) : Nat := (b.getD i 0) % 256

/-- `binary.BigEndian.Uint32(b[off:])`. -/
def readBE32 (b : Bytes) (off : Nat) : Nat :=
  byteAt b off * 2 ^ 24 + byteAt b (off + 1) * 2 ^ 16 +
    byteAt b (off + 2) * 2 ^ 8 + byteAt b (off + 3)

/-- `binary.BigEndian.Uint64(b[off:])`. -/
def readBE64 (b : Bytes) (off : Nat) : Nat :=
  byteAt b off * 2 ^ 56 + byteAt b (off + 1) * 2 ^ 48 +
    byteAt b (off + 2) * 2 ^ 40 + byteAt b (off + 3) * 2 ^ 32 +
    byteAt b (off + 4) * 2 ^ 24 + byteAt b (off + 5) * 2 ^ 16 +
    byteAt b (off + 6) * 2 ^ 8 + byteAt b (off + 7)

/-- `io.ReadFull(r, buf)` over a byte-list source: returns the `n` bytes read
and the remaining stream.  With nothing available it is `io.EOF`; with fewer
than `n` bytes available it consumes them all and is `io.ErrUnexpectedEOF`. -/
def readFull (r : Bytes) (n : Nat) : Except Err (Bytes × Bytes) :=
  if n ≤ r.length then .ok (r.take n, r.drop n)
  else if r.length = 0 ∧ 0 < n then .error .eof
  else .error .unexpectedEOF

/-- `MaxPageSize`. -/
def MaxPageSize : Nat := 65536

/-- `IsValidPageSize`: the Go loop doubles from 512 to 65536 and accepts
exactly these eight powers of two (loop unrolled here). -/
def IsValidPageSize (sz : Nat) : Bool :=
  sz = 512 ∨ sz = 1024 ∨ sz = 2048 ∨ sz = 4096 ∨
    sz = 8192 ∨ sz = 16384 ∨ sz = 32768 ∨ sz = 65536

/-- `IsValidHeaderFlags`: true unless flags outside `HeaderFlagMask` are set. -/
def IsValidHeaderFlags (flags : Nat) : Bool :=
  flags = (flags &&& HeaderFlagMask)

/-- The LTX header record (`Header` in `ltx.go`, 100-byte layout).  All
fields are modelled as the `Nat` bit pattern of their Go machine type
(`Timestamp`, `WALOffset` and `WALSize` are `int64` in Go; their sign bit is
bit 63 of the pattern). -/
structure Header where
  version : Nat := 0
  flags : Nat := 0
  pageSize : Nat := 0
  commit : Nat := 0
  minTXID : Nat := 0
  maxTXID : Nat := 0
  timestamp : Nat := 0
  preApplyChecksum : Nat := 0
  walOffset : Nat := 0
  walSize : Nat := 0
  walSalt1 : Nat := 0
  walSalt2 : Nat := 0
  nodeID : Nat := 0
deriving DecidableEq, Repr, Inhabited

/-- The current format version. -/
def Version : Nat := 1

namespace Header

/-- `Header.IsSnapshot`: `MinTXID == 1`. -/
def isSnapshot (h : Header) : Bool := h.minTXID = 1

/-- `Header.LockPgno`. -/
def lockPgno (h : Header) : Nat := LockPgno h.pageSize

/-- Sign test for an `int64` field stored as its bit pattern: negative iff
bit 63 is set. -/
def i64neg (v : Nat) : Bool := v / 2 ^ 63 % 2 = 1

/-- `Header.Validate`: `none` means valid, `some e` is the error returned.
Field order and messages follow `ltx.go` exactly. -/
def validate (h : Header) : Option Err :=
  if h.version ≠ Version then some .invalidVersion
  else if ¬IsValidHeaderFlags h.flags then some (.invalidFlags h.flags)
  else if ¬IsValidPageSize h.pageSize then some (.invalidPageSize h.pageSize)
  else if h.minTXID = 0 then some .minTXIDRequired
  else if h.maxTXID = 0 then some .maxTXIDRequired
  else if h.minTXID > h.maxTXID then some (.txidOutOfOrder h.minTXID h.maxTXID)
  else if i64neg h.walOffset then some (.walOffsetNegative h.walOffset)
  else if i64neg h.walSize then some (.walSizeNegative h.walSize)
  else if (h.walSalt1 ≠ 0 ∨ h.walSalt2 ≠ 0) ∧ h.walOffset = 0 then some .walOffsetRequiredIfSalt
  else if (h.walSalt1 ≠ 0 ∨ h.walSalt2 ≠ 0) ∧ h.walSize = 0 then some .walSizeRequiredIfSalt
  else if h.walOffset ≠ 0 ∧ h.walSize = 0 then some .walSizeRequiredIfOffset
  else if h.walOffset = 0 ∧ h.walSize ≠ 0 then some .walOffsetRequiredIfSize
  else if h.isSnapshot then
    if h.preApplyChecksum ≠ 0 then some .preApplyNotAllowedOnSnapshot else none
  else if h.preApplyChecksum = 0 then some .preApplyRequired
  else if h.preApplyChecksum &&& ChecksumFlag = 0 then some .invalidPreApplyFormat
  else none

/-- The four magic bytes `"LTX1"`. -/
def magicBytes : Bytes := [0x4C, 0x54, 0x58, 0x31]

/-- `Header.MarshalBinary`: the 100-byte big-endian record. -/
def marshalBinary (h : Header) : Bytes :=
  magicBytes ++ be32 h.flags ++ be32 h.pageSize ++ be32 h.commit ++
    be64 h.minTXID ++ be64 h.maxTXID ++ be64 h.timestamp ++
    be64 h.preApplyChecksum ++ be64 h.walOffset ++ be64 h.walSize ++
    be32 h.walSalt1 ++ be32 h.walSalt2 ++ be64 h.nodeID ++
    List.replicate 20 0

/-- `Header.UnmarshalBinary`: length check, field extraction, magic check
(the Go code assigns the fields before testing the magic; on a magic
mismatch the caller's header has been overwritten — no claim below observes
a header after a failed unmarshal, so the functional reading returns only
the error), and `Version` is set from the magic. -/
def unmarshalBinary (b : Bytes) : Except Err Header :=
  if b.length < HeaderSize then .error .shortBuffer
  else
    let h : Header :=
      { version := 0
        flags := readBE32 b 4
        pageSize := readBE32 b 8
        commit := readBE32 b 12
        minTXID := readBE64 b 16
        maxTXID := readBE64 b 24
        timestamp := readBE64 b 32
        preApplyChecksum := readBE64 b 40
        walOffset := readBE64 b 48
        walSize := readBE64 b 56
        walSalt1 := readBE32 b 64
        walSalt2 := readBE32 b 68
        nodeID := readBE64 b 72 }
    if b.take 4 ≠ magicBytes then .error .invalidFile
    else .ok { h with version := Version }

end Header

/-- The LTX trailer record. -/
structure Trailer where
  postApplyChecksum : Nat := 0
  fileChecksum : Nat := 0
deriving DecidableEq, Repr, Inhabited

namespace Trailer

/-- `Trailer.Validate`, translated from `ltx.go` (the encoder in the newest
revision calls a variant that also receives the header; that variant is not
present under `src/`, and the specification's §4.3 trailer validation —
"PostApplyChecksum must be nonzero with ChecksumFlag set; FileChecksum
likewise" — is exactly the header-independent code below, so the header
argument is modelled as unused). -/
def validate (t : Trailer) : Option Err :=
  if t.postApplyChecksum = 0 then some .postApplyRequired
  else if t.postApplyChecksum &&& ChecksumFlag = 0 then some .invalidPostApplyFormat
  else if t.fileChecksum = 0 then some .fileChecksumRequired
  else if t.fileChecksum &&& ChecksumFlag = 0 then some .invalidFileChecksumFormat
  else none

/-- `Trailer.MarshalBinary`. -/
def marshalBinary (t : Trailer) : Bytes :=
  be64 t.postApplyChecksum ++ be64 t.fileChecksum

/-- `Trailer.UnmarshalBinary`. -/
def unmarshalBinary (b : Bytes) : Except Err Trailer :=
  if b.length < TrailerSize then .error .shortBuffer
  else .ok { postApplyChecksum := readBE64 b 0, fileChecksum := readBE64 b 8 }

end Trailer

/-- An LTX page header: the page number. -/
structure PageHeader where
  pgno : Nat := 0
deriving DecidableEq, Repr, Inhabited

namespace PageHeader

/-- `PageHeader.IsZero`. -/
def isZero (h : PageHeader) : Bool := h.pgno = 0

/-- `PageHeader.Validate`. -/
def validate (h : PageHeader) : Option Err :=
  if h.pgno = 0 then some .pgnoRequired else none

/-- `PageHeader.MarshalBinary`. -/
def marshalBinary (h : PageHeader) : Bytes := be32 h.pgno

/-- `PageHeader.UnmarshalBinary`. -/
def unmarshalBinary (b : Bytes) : Except Err PageHeader :=
  if b.length < PageHeaderSize then .error .shortBuffer
  else .ok { pgno := readBE32 b 0 }

end PageHeader

/-- `ChecksumPage(pgno, data)`: reset a CRC64-ISO hasher, feed the 4-byte
big-endian page number then the data, and set `ChecksumFlag` on the sum. -/
def ChecksumPage (pgno : Nat) (data : Bytes) : Nat :=
  ChecksumFlag ||| crc64 (be32 pgno ++ data)

/-- The loop of `ChecksumReader`, reading page-sized chunks and folding
`ChecksumPage` per iteration exactly as the Go loop does
(`chksum = ChecksumFlag | (chksum ^ ChecksumPage(pgno, data))`).  The fuel
strictly dominates the iteration count whenever `pageSize > 0` (each
iteration consumes `pageSize` bytes). -/
def checksumReaderLoop (fuel : Nat) (r : Bytes) (pageSize : Nat) (pgno chksum : Nat) :
    Except Err Nat :=
  match fuel with
  | 0 => .error .fuelExhausted
  | fuel + 1 =>
    match readFull r pageSize with
    | .error .eof => .ok chksum
    | .error e => .error e
    | .ok (data, rest) =>
      checksumReaderLoop fuel rest pageSize (pgno + 1)
        (ChecksumFlag ||| (chksum ^^^ ChecksumPage pgno data))

/-- `ChecksumReader(r, pageSize)`: reads a database file in full pages from
the start, numbering pages from 1, folding each page checksum into a running
value. -/
def ChecksumReader (r : Bytes) (pageSize : Nat) : Except Err Nat :=
  checksumReaderLoop (r.length + 1) r pageSize 1 0

/-! ## Decoder (`decoder.go`)

Each Go method mutates its receiver and returns an error; the embedding
returns the mutated decoder together with an `Except` result, so state
changes made before an early `return` are preserved. -/

/-- The decoder state: remaining source bytes, decoded header and trailer,
state tag, running CRC64 hasher state and byte count. -/
structure Decoder where
  r : Bytes
  header : Header := {}
  trailer : Trailer := {}
  state : StateTag := .header
  crc : Nat := 0
  n : Nat := 0
deriving DecidableEq, Repr, Inhabited

/-- Decidable equality for `Except` results (not derived by core). -/
instance {e a : Type} [DecidableEq e] [DecidableEq a] : DecidableEq (Except e a) := fun x y =>
  match x, y with
  | .ok u, .ok v =>
    if h : u = v then isTrue (by rw [h]) else isFalse (by intro hc; cases hc; exact h rfl)
  | .error u, .error v =>
    if h : u = v then isTrue (by rw [h]) else isFalse (by intro hc; cases hc; exact h rfl)
  | .ok _, .error _ => isFalse (by intro hc; cases hc)
  | .error _, .ok _ => isFalse (by intro hc; cases hc)

/-- `NewDecoder`. -/
def newDecoder (r : Bytes) : Decoder := { r := r }

namespace Decoder

/-- `Decoder.Checksum()`: `ChecksumFlag | hash.Sum64()`. -/
def checksum (dec : Decoder) : Nat := ChecksumFlag ||| dec.crc

/-- `Decoder.writeToHash`. -/
def writeToHash (dec : Decoder) (b : Bytes) : Decoder :=
  { dec with crc := crcUpd dec.crc b, n := dec.n + b.length }

/-- `Decoder.DecodeHeader`: reads 100 bytes with no state check, feeds them
to the hasher, moves to the `page` state, and only then validates. -/
def decodeHeader (dec : Decoder) : Decoder × Except Err Unit :=
  match readFull dec.r HeaderSize with
  | .error e => ({ dec with r := [] }, .error e)
  | .ok (b, rest) =>
    match Header.unmarshalBinary b with
    | .error e => ({ dec with r := rest }, .error (.wrap .unmarshalHeader e))
    | .ok hdr =>
      let dec := { dec with r := rest, header := hdr }
      let dec := dec.writeToHash b
      let dec := { dec with state := .page }
      match hdr.validate with
      | some e => (dec, .error e)
      | none => (dec, .ok ())

/-- `Decoder.DecodePage`: state checks, buffer-length check, page header
read, end-of-block detection, page data read.  `bufLen` is the length of
the caller's buffer (`len(data)`); the page data read is returned. -/
def decodePage (dec : Decoder) (bufLen : Nat) :
    Decoder × Except Err (PageHeader × Bytes) :=
  if dec.state = .closed then (dec, .error .decoderClosed)
  else if dec.state = .close then (dec, .error .eof)
  else if dec.state ≠ .page then (dec, .error (.cannotReadPageHeader dec.state))
  else if bufLen ≠ dec.header.pageSize then
    (dec, .error (.invalidPageBufferSize bufLen dec.header.pageSize))
  else
    match readFull dec.r PageHeaderSize with
    | .error e => ({ dec with r := [] }, .error e)
    | .ok (b, rest) =>
      match PageHeader.unmarshalBinary b with
      | .error e => ({ dec with r := rest }, .error (.wrap .unmarshalPageHeader e))
      | .ok hdr =>
        let dec := { dec with r := rest }
        let dec := dec.writeToHash b
        if hdr.isZero then
          ({ dec with state := .close }, .error .eof)
        else
          match hdr.validate with
          | some e => (dec, .error e)
          | none =>
            match readFull dec.r dec.header.pageSize with
            | .error e => ({ dec with r := [] }, .error e)
            | .ok (data, rest) =>
              let dec := { dec with r := rest }
              let dec := dec.writeToHash data
              (dec, .ok (hdr, data))

/-- `Decoder.Close`: reads the 16-byte trailer, hashes its first 8 bytes,
and compares the computed file checksum against the trailer's.  There is no
post-apply checksum verification. -/
def close (dec : Decoder) : Decoder × Except Err Unit :=
  if dec.state = .closed then (dec, .ok ())   -- no-op
  else if dec.state ≠ .close then (dec, .error (.cannotClose dec.state))
  else
    match readFull dec.r TrailerSize with
    | .error e => ({ dec with r := [] }, .error e)
    | .ok (b, rest) =>
      match Trailer.unmarshalBinary b with
      | .error e => ({ dec with r := rest }, .error (.wrap .unmarshalTrailer e))
      | .ok tr =>
        let dec := { dec with r := rest, trailer := tr }
        let dec := dec.writeToHash (b.take TrailerChecksumOffset)
        if dec.checksum ≠ tr.fileChecksum then
          (dec, .error .checksumMismatch)
        else
          ({ dec with state := .closed }, .ok ())

end Decoder

/-! ## Encoder (`encoder.go`, newest revision)

The LZ4 writer interposed when `HeaderFlagCompressLZ4` is set is the
external `pierrec/lz4` library, outside this repository; the specification
treats compression as a transparent stream transform out of the core's
scope.  The embedding records the uncompressed body bytes (`zbuf`) and
renders the flushed compressed stream through `lz4Compress`, a placeholder
no theorem in this file depends on: every theorem about encoder output
assumes the flag is clear, and the error-behaviour theorems never inspect
the output bytes. -/

/-- Placeholder for the external LZ4 frame encoder (`pierrec/lz4`), not code
of this repository.  Modelled as the identity transform per the
specification's "transparent stream transform"; no theorem below depends on
its value. -/
def lz4Compress (b : Bytes) : Bytes := b

/-- The encoder state: bytes written to the underlying sink (`out`), the
pending uncompressed body when the LZ4 writer is active (`zbuf`/`zw`),
state tag, header, trailer, hasher state, byte count, and page-ordering
trackers. -/
structure Encoder where
  out : Bytes := []
  zbuf : Bytes := []
  zw : Bool := false
  state : StateTag := .header
  header : Header := {}
  trailer : Trailer := {}
  crc : Nat := 0
  n : Nat := 0
  prevPgno : Nat := 0
  pagesWritten : Nat := 0
deriving DecidableEq, Repr, Inhabited

/-- `NewEncoder`. -/
def newEncoder : Encoder := {}

namespace Encoder

/-- `Encoder.writeToHash`. -/
def writeToHash (enc : Encoder) (b : Bytes) : Encoder :=
  { enc with crc := crcUpd enc.crc b, n := enc.n + b.length }

/-- `Encoder.write`: write through the current writer (the LZ4 writer when
active, the underlying sink otherwise) and feed the hasher.  In-memory
writes never fail. -/
def write (enc : Encoder) (b : Bytes) : Encoder :=
  let enc := if enc.zw then { enc with zbuf := enc.zbuf ++ b }
             else { enc with out := enc.out ++ b }
  enc.writeToHash b

/-- `Encoder.SetPostApplyChecksum`. -/
def setPostApplyChecksum (enc : Encoder) (chksum : Nat) : Encoder :=
  { enc with trailer := { enc.trailer with postApplyChecksum := chksum } }

/-- `Encoder.EncodeHeader`: state check, header validation, fresh hasher,
header write, LZ4 writer installation, transition to the `page` state. -/
def encodeHeader (enc : Encoder) (hdr : Header) : Encoder × Except Err Unit :=
  if enc.state = .closed then (enc, .error .encoderClosed)
  else if enc.state ≠ .header then (enc, .error (.cannotEncodeHeaderFrame enc.state))
  else
    match hdr.validate with
    | some e => (enc, .error e)
    | none =>
      let enc := { enc with header := hdr, crc := 0 }
      let enc := enc.write hdr.marshalBinary
      let enc := if hdr.flags &&& HeaderFlagCompressLZ4 ≠ 0 then { enc with zw := true } else enc
      ({ enc with state := .page }, .ok ())

/-- The tail of `EncodePage` after all validations: write the marshalled
page header and the page data, bump the trackers. -/
def writePageFrame (enc : Encoder) (hdr : PageHeader) (data : Bytes) :
    Encoder × Except Err Unit :=
  let enc := enc.write hdr.marshalBinary
  let enc := enc.write data
  ({ enc with pagesWritten := enc.pagesWritten + 1, prevPgno := hdr.pgno }, .ok ())

/-- `Encoder.EncodePage`: the validation sequence of the source in order —
state, commit bound, page number nonzero, buffer size, lock page, snapshot
ordering (with the skip-lock-page rule) or non-snapshot strict increase —
followed by the page header and page data writes. -/
def encodePage (enc : Encoder) (hdr : PageHeader) (data : Bytes) :
    Encoder × Except Err Unit :=
  if enc.state = .closed then (enc, .error .encoderClosed)
  else if enc.state ≠ .page then (enc, .error (.cannotEncodePageHeader enc.state))
  else if hdr.pgno > enc.header.commit then
    (enc, .error (.pgnoOutOfBounds hdr.pgno enc.header.commit))
  else
    match hdr.validate with
    | some e => (enc, .error e)
    | none =>
      if data.length ≠ enc.header.pageSize then
        (enc, .error (.invalidPageBufferSize data.length enc.header.pageSize))
      else
        let lockPgno := LockPgno enc.header.pageSize
        if hdr.pgno = lockPgno then (enc, .error (.cannotEncodeLockPage hdr.pgno))
        else if enc.header.isSnapshot then
          if enc.prevPgno = 0 ∧ hdr.pgno ≠ 1 then
            (enc, .error .snapshotMustStartWithPage1)
          else if enc.prevPgno = lockPgno - 1 then
            if hdr.pgno ≠ enc.prevPgno + 2 then
              (enc, .error (.nonseqSnapshotSkipLock enc.prevPgno hdr.pgno))
            else enc.writePageFrame hdr data
          else if enc.prevPgno ≠ 0 ∧ hdr.pgno ≠ enc.prevPgno + 1 then
            (enc, .error (.nonseqSnapshot enc.prevPgno hdr.pgno))
          else enc.writePageFrame hdr data
        else
          if enc.prevPgno ≥ hdr.pgno then
            (enc, .error (.outOfOrderPages enc.prevPgno hdr.pgno))
          else enc.writePageFrame hdr data

/-- `Encoder.Close`: terminating zero page header, LZ4 flush and revert to
the underlying writer, file-checksum computation over the trailer's first 8
bytes, trailer validation, the deletion-file (`Commit == 0`) rule, and the
final trailer write (not hashed). -/
def close (enc : Encoder) : Encoder × Except Err Unit :=
  if enc.state = .closed then (enc, .ok ())   -- no-op
  else if enc.state ≠ .page then (enc, .error (.cannotClose enc.state))
  else
    let enc := enc.write (PageHeader.marshalBinary {})
    -- close the LZ4 writer if in use, flushing the compressed body, and
    -- revert to the underlying writer
    let enc := if enc.zw then
        { enc with out := enc.out ++ lz4Compress enc.zbuf, zbuf := [], zw := false }
      else enc
    let b1 := enc.trailer.marshalBinary
    let enc := enc.writeToHash (b1.take TrailerChecksumOffset)
    let enc := { enc with trailer := { enc.trailer with fileChecksum := ChecksumFlag ||| enc.crc } }
    match enc.trailer.validate with
    | some e => (enc, .error (.wrap .validateTrailer e))
    | none =>
      if enc.header.commit = 0 ∧ enc.trailer.postApplyChecksum ≠ ChecksumFlag then
        (enc, .error .postApplyMustBeEmptyForZeroLength)
      else
        let enc := { enc with out := enc.out ++ enc.trailer.marshalBinary }
        let enc := { enc with n := enc.n + ChecksumSize }
        ({ enc with state := .closed }, .ok ())

end Encoder

/-! ## FileSpec (`file_spec.go`, encoder/decoder-based revision) -/

/-- `PageSpec`: one page frame of an in-memory LTX file. -/
structure PageSpec where
  header : PageHeader := {}
  data : Bytes := []
deriving DecidableEq, Repr, Inhabited

/-- `FileSpec`: an in-memory representation of a whole LTX file. -/
structure FileSpec where
  header : Header := {}
  pages : List PageSpec := []
  trailer : Trailer := {}
deriving DecidableEq, Repr, Inhabited

namespace FileSpec

/-- The page-encoding loop of `FileSpec.WriteTo`, indexed for the
`"encode page[%d]"` error wrapper. -/
def writePages (enc : Encoder) (i : Nat) :
    List PageSpec → Except Err Encoder
  | [] => .ok enc
  | page :: rest =>
    match enc.encodePage page.header page.data with
    | (_, .error e) => .error (.wrap (.encodePageFS i) e)
    | (enc, .ok _) => writePages enc (i + 1) rest

/-- `FileSpec.WriteTo`: drive an encoder from the spec; on success the
spec's trailer is replaced by the encoder's resolved trailer and the bytes
written and their count are returned. -/
def writeTo (s : FileSpec) : Except Err (FileSpec × Bytes × Nat) :=
  match newEncoder.encodeHeader s.header with
  | (_, .error e) => .error (.wrap .encodeHeaderFS e)
  | (enc, .ok _) =>
    match writePages enc 0 s.pages with
    | .error e => .error e
    | .ok enc =>
      let enc := enc.setPostApplyChecksum s.trailer.postApplyChecksum
      match enc.close with
      | (_, .error e) => .error (.wrap .closeEncoderFS e)
      | (enc, .ok _) => .ok ({ s with trailer := enc.trailer }, enc.out, enc.n)

/-- The page-reading loop of `FileSpec.ReadFrom`: decode pages until the
decoder reports `io.EOF`.  Each successful iteration consumes at least the
4-byte page header from the source, so `fuel = r.length + 1` at the call
site strictly dominates the iteration count. -/
def readPages (fuel : Nat) (dec : Decoder) (acc : List PageSpec) :
    Except Err (Decoder × List PageSpec) :=
  match fuel with
  | 0 => .error .fuelExhausted
  | fuel + 1 =>
    match dec.decodePage dec.header.pageSize with
    | (dec, .error .eof) => .ok (dec, acc)
    | (_, .error e) => .error (.wrap .readPageFS e)
    | (dec, .ok (hdr, data)) =>
      readPages fuel dec (acc ++ [{ header := hdr, data := data }])

/-- `FileSpec.ReadFrom`: drive a decoder, accumulating header, pages and
trailer; returns the populated spec and the byte count. -/
def readFrom (r : Bytes) : Except Err (FileSpec × Nat) :=
  let dec := newDecoder r
  match dec.decodeHeader with
  | (_, .error e) => .error (.wrap .readHeaderFS e)
  | (dec, .ok _) =>
    match readPages (r.length + 1) dec [] with
    | .error e => .error e
    | .ok (dec, pages) =>
      match dec.close with
      | (_, .error e) => .error (.wrap .closeReaderFS e)
      | (dec, .ok _) =>
        .ok ({ header := dec.header, pages := pages, trailer := dec.trailer }, dec.n)

end FileSpec

/-! ## Compactor (`compactor.go`)

`Compact(ctx)` receives a `context.Context`; the embedding carries it as a
value holding the context's cancellation error, threaded exactly where the
source threads it. -/

/-- The ambient cancellation signal (`context.Context`): `err` is what
`ctx.Err()` would return. -/
structure Ctx where
  err : Option Err := none
deriving DecidableEq, Repr, Inhabited

/-- `compactorInput`: a decoder plus its one-page buffer.  An empty buffer
is represented, as in the source, by a zero page header. -/
structure CompactorInput where
  dec : Decoder
  bufHdr : PageHeader := {}
  bufData : Bytes := []
deriving DecidableEq, Repr, Inhabited

/-- `Compactor`. -/
structure Compactor where
  enc : Encoder := newEncoder
  inputs : List CompactorInput := []
  headerFlags : Nat := 0
deriving DecidableEq, Repr, Inhabited

/-- `NewCompactor`: one decoder per input reader. -/
def newCompactor (rdrs : List Bytes) : Compactor :=
  { inputs := rdrs.map fun r => { dec := newDecoder r } }

namespace Compactor

/-- The header-decoding loop at the top of `Compact`.  On a decode failure
the Go code executes a bare `return`, so the named `retErr` result is still
`nil`: the loop reports *no* error even though decoding failed.  The flag
returned records whether the loop was aborted by such a failure. -/
def decodeAllHeaders : List CompactorInput → List CompactorInput × Bool
  | [] => ([], false)
  | input :: rest =>
    match input.dec.decodeHeader with
    | (dec, .error _) => ({ input with dec := dec } :: rest, true)
    | (dec, .ok _) =>
      let (rest, aborted) := decodeAllHeaders rest
      ({ input with dec := dec } :: rest, aborted)

/-- The comparator passed to `sort.Slice` in `Compact`, written exactly as
in the source: `inputs[i].dec.Header().MinTXID < inputs[j].dec.Header().MaxTXID`. -/
def inputLess (a b : CompactorInput) : Bool :=
  a.dec.header.minTXID < b.dec.header.maxTXID

/-- Insert `x` into the sorted prefix `p`, moving it left past every element
`y` (scanning from the right) with `less x y` — the inner `for j := i; j > 0
&& less(j, j-1); j--` loop of Go's insertion sort. -/
def insertFromRight (less : CompactorInput → CompactorInput → Bool)
    (x : CompactorInput) (p : List CompactorInput) : List CompactorInput :=
  let moved := (p.reverse.takeWhile fun y => less x y).reverse
  let keep := (p.reverse.dropWhile fun y => less x y).reverse
  keep ++ [x] ++ moved

/-- Go's `insertionSort` (the algorithm `sort.Slice` runs for slices shorter
than 12; every concrete instance in this file is far shorter).  For longer
slices `sort.Slice` switches to pdqsort, which may order elements
differently under this comparator since it is not a strict weak order; the
theorems about the post-sort pipeline are stated over the sorted list
itself and do not depend on which permutation the sort produced. -/
def goInsertionSort (less : CompactorInput → CompactorInput → Bool)
    (l : List CompactorInput) : List CompactorInput :=
  l.foldl (fun acc x => insertFromRight less x acc) []

/-- The body of `fillPageBuffers`: refill each empty buffer from its decoder
(EOF leaves the slot empty) and track the lowest page number among the
buffers, exactly as the Go loop updates `pgno`.  `i` is the input index
(for the error wrapper), `bufLen` the shared page-buffer size allocated in
`writePageBlock`. -/
def fillLoop (bufLen : Nat) : List CompactorInput → Nat → Nat →
    Except Err (List CompactorInput × Nat)
  | [], _, pgno => .ok ([], pgno)
  | input :: rest, i, pgno =>
    if input.bufHdr.isZero then
      match input.dec.decodePage bufLen with
      | (dec, .error .eof) =>
        -- end of page block: leave the slot empty and skip the min update
        match fillLoop bufLen rest (i + 1) pgno with
        | .error e => .error e
        | .ok (rest1, p1) => .ok ({ input with dec := dec } :: rest1, p1)
      | (_, .error e) => .error (.wrap (.readPageHeaderInput i) e)
      | (dec, .ok (hdr, data)) =>
        -- the slot is filled and then takes part in the min update
        match fillLoop bufLen rest (i + 1)
            (if pgno = 0 ∨ hdr.pgno < pgno then hdr.pgno else pgno) with
        | .error e => .error e
        | .ok (rest1, p1) =>
          .ok ({ input with dec := dec, bufHdr := hdr, bufData := data } :: rest1, p1)
    else
      match fillLoop bufLen rest (i + 1)
          (if pgno = 0 ∨ input.bufHdr.pgno < pgno then input.bufHdr.pgno else pgno) with
      | .error e => .error e
      | .ok (rest1, p1) => .ok (input :: rest1, p1)

/-- `Compactor.fillPageBuffers` (the `ctx` argument is received but never
consulted, as in the source). -/
def fillPageBuffers (_ctx : Ctx) (inputs : List CompactorInput) (bufLen : Nat) :
    Except Err (List CompactorInput × Nat) :=
  fillLoop bufLen inputs 0 0

/-- The body of `writePageBuffer`, which iterates the inputs from the
*newest* (highest index) back to the oldest: this helper processes the
reversed input list.  Matching buffers are cleared; the first match is
written unless the page number exceeds the commit size. -/
def writeLoop (pgno commit : Nat) : List CompactorInput → Encoder → Bool →
    Except Err (List CompactorInput × Encoder)
  | [], enc, _ => .ok ([], enc)
  | input :: rest, enc, pageWritten =>
    if input.bufHdr.pgno ≠ pgno then
      match writeLoop pgno commit rest enc pageWritten with
      | .error e => .error e
      | .ok (rest1, enc1) => .ok (input :: rest1, enc1)
    else
      -- the buffer is cleared; its page header and data were taken first
      if pageWritten then
        match writeLoop pgno commit rest enc pageWritten with
        | .error e => .error e
        | .ok (rest1, enc1) => .ok ({ input with bufHdr := {} } :: rest1, enc1)
      else if pgno > commit then
        -- out of range of the final database size: skip (pageWritten stays false)
        match writeLoop pgno commit rest enc pageWritten with
        | .error e => .error e
        | .ok (rest1, enc1) => .ok ({ input with bufHdr := {} } :: rest1, enc1)
      else
        match enc.encodePage input.bufHdr input.bufData with
        | (_, .error e) => .error (.wrap (.copyPage pgno) e)
        | (enc1, .ok _) =>
          match writeLoop pgno commit rest enc1 true with
          | .error e => .error e
          | .ok (rest1, enc2) => .ok ({ input with bufHdr := {} } :: rest1, enc2)

/-- `Compactor.writePageBuffer`: write the buffer with a matching `pgno`
from the latest input (the `ctx` argument is received but never consulted). -/
def writePageBuffer (_ctx : Ctx) (inputs : List CompactorInput) (enc : Encoder)
    (pgno : Nat) : Except Err (List CompactorInput × Encoder) :=
  match writeLoop pgno enc.header.commit inputs.reverse enc false with
  | .error e => .error e
  | .ok (revInputs, enc) => .ok (revInputs.reverse, enc)

/-- The merge loop of `writePageBlock`: fill, stop on `pgno == 0`, write.
Each iteration with `pgno ≠ 0` clears at least one filled buffer whose page
frame consumed at least 4 source bytes, so the fuel chosen at the call site
strictly dominates the iteration count. -/
def mergeLoop (ctx : Ctx) (fuel : Nat) (inputs : List CompactorInput)
    (enc : Encoder) : Except Err (List CompactorInput × Encoder) :=
  match fuel with
  | 0 => .error .fuelExhausted
  | fuel + 1 =>
    match fillPageBuffers ctx inputs enc.header.pageSize with
    | .error e => .error e
    | .ok (inputs, pgno) =>
      if pgno = 0 then .ok (inputs, enc)   -- no more page frames, exit
      else
        match writePageBuffer ctx inputs enc pgno with
        | .error e => .error e
        | .ok (inputs, enc) => mergeLoop ctx fuel inputs enc

/-- `Compactor.writePageBlock`: allocate the page buffers and run the merge
loop. -/
def writePageBlock (ctx : Ctx) (c : Compactor) : Except Err Compactor :=
  let inputs := c.inputs.map fun input =>
    { input with bufData := List.replicate c.enc.header.pageSize 0 }
  let fuel := (inputs.map fun input => input.dec.r.length).sum + inputs.length + 2
  match mergeLoop ctx fuel inputs c.enc with
  | .error e => .error e
  | .ok (inputs, enc) => .ok { c with inputs := inputs, enc := enc }

/-- The reader-closing loop of `Compact` (`"close reader %d"`). -/
def closeInputs : List CompactorInput → Nat → Except Err (List CompactorInput)
  | [], _ => .ok []
  | input :: rest, i =>
    match input.dec.close with
    | (_, .error e) => .error (.wrap (.closeReader i) e)
    | (dec, .ok _) =>
      match closeInputs rest (i + 1) with
      | .error e => .error e
      | .ok rest => .ok ({ input with dec := dec } :: rest)

/-- The adjacent-pair validation loop of `Compact`: equal page sizes and
contiguous transaction ranges (`prev.MaxTXID + 1 == next.MinTXID`, with the
`uint64` wraparound of the Go addition made explicit). -/
def validatePairs : List CompactorInput → Option Err
  | a :: b :: rest =>
    if a.dec.header.pageSize ≠ b.dec.header.pageSize then
      some (.mismatchedPageSizes a.dec.header.pageSize b.dec.header.pageSize)
    else if (a.dec.header.maxTXID + 1) % 2 ^ 64 ≠ b.dec.header.minTXID then
      some (.nonContiguousTXIDs a.dec.header.minTXID a.dec.header.maxTXID
        b.dec.header.minTXID b.dec.header.maxTXID)
    else validatePairs (b :: rest)
  | _ => none

/-- The pipeline of `Compact` after the input sort: adjacent-pair
validation, output-header derivation and encoding, the page-merge block,
closing every input decoder, and sealing the encoder with the last input's
post-apply checksum. -/
def compactFromSorted (ctx : Ctx) (c : Compactor) : Compactor × Option Err :=
  -- validate that reader page sizes match & TXIDs are contiguous
  match validatePairs c.inputs with
  | some e => (c, some e)
  | none =>
    let minHdr := (c.inputs.headD default).dec.header
    let maxHdr := (c.inputs.getLastD default).dec.header
    -- generate output header; NodeID is skipped (zero) as it is not
    -- meaningful after compaction
    let outHdr : Header :=
      { version := Version
        flags := c.headerFlags
        pageSize := minHdr.pageSize
        commit := maxHdr.commit
        minTXID := minHdr.minTXID
        maxTXID := maxHdr.maxTXID
        timestamp := minHdr.timestamp
        preApplyChecksum := minHdr.preApplyChecksum }
    match c.enc.encodeHeader outHdr with
    | (_, .error e) => (c, some (.wrap .writeHeaderCompact e))
    | (enc, .ok _) =>
      let c := { c with enc := enc }
      match c.writePageBlock ctx with
      | .error e => (c, some e)
      | .ok c =>
        match closeInputs c.inputs 0 with
        | .error e => (c, some e)
        | .ok inputs =>
          let c := { c with inputs := inputs }
          let enc := c.enc.setPostApplyChecksum
            ((c.inputs.getLastD default).dec.trailer.postApplyChecksum)
          match enc.close with
          | (_, .error e) => ({ c with enc := enc }, some (.wrap .closeEncoder e))
          | (enc, .ok _) => ({ c with enc := enc }, none)

/-- `Compactor.Compact`: input presence check, the header-decoding loop
(whose failure path drops the error — see `decodeAllHeaders`), the input
sort, and the post-sort pipeline. -/
def compact (ctx : Ctx) (c : Compactor) : Compactor × Option Err :=
  if c.inputs.length = 0 then (c, some .atLeastOneInputRequired)
  else
    match decodeAllHeaders c.inputs with
    | (inputs, true) => ({ c with inputs := inputs }, none)   -- bare `return`: retErr is nil
    | (inputs, false) =>
      let c := { c with inputs := goInsertionSort inputLess inputs }
      compactFromSorted ctx c

end Compactor

/-! ## Spec-side definitions

Definitions in this section are not translations of program code: they state
the properties the claims compare the code against (XOR folds, buffer
clearing, validity of a `FileSpec`), written from the specification's words,
plus the concrete instances used by witnesses and counterexamples. -/

/-- Splits a byte stream into its full pages numbered from `pgno` upward
(the specification's reading of a database file as pages).  Fuel-recursive;
any fuel above `r.length` is exact when `0 < ps`. -/
def pageChunks : Nat → Bytes → Nat → Nat → List (Nat × Bytes)
  | 0, _, _, _ => []
  | fuel + 1, r, ps, pgno =>
    if r.length = 0 then []
    else (pgno, r.take ps) :: pageChunks fuel (r.drop ps) ps (pgno + 1)

/-- The specification's XOR fold of page checksums over a page list. -/
def dbXorFold (l : List (Nat × Bytes)) : Nat :=
  l.foldl (fun c pd => c ^^^ ChecksumPage pd.1 pd.2) 0

/-- Clearing the buffer of every input holding `pgno` (the specification's
"all other matches' slots are cleared"). -/
def clearBuffers (inputs : List CompactorInput) (pgno : Nat) : List CompactorInput :=
  inputs.map fun inp => if inp.bufHdr.pgno = pgno then { inp with bufHdr := {} } else inp

/-- The newest (highest-index) input whose pending page is `pgno`. -/
def newestMatch (inputs : List CompactorInput) (pgno : Nat) : Option CompactorInput :=
  inputs.reverse.find? fun inp => inp.bufHdr.pgno = pgno

/-- Machine-width bounds on a header's fields: every field fits its Go type
(`uint32`/`uint64`/`int64` bit pattern).  All headers reachable in the Go
program satisfy this by typing. -/
def Header.wf (h : Header) : Bool :=
  h.flags < 2 ^ 32 ∧ h.pageSize < 2 ^ 32 ∧ h.commit < 2 ^ 32 ∧
    h.minTXID < 2 ^ 64 ∧ h.maxTXID < 2 ^ 64 ∧ h.timestamp < 2 ^ 64 ∧
    h.preApplyChecksum < 2 ^ 64 ∧ h.walOffset < 2 ^ 64 ∧ h.walSize < 2 ^ 64 ∧
    h.walSalt1 < 2 ^ 32 ∧ h.walSalt2 < 2 ^ 32 ∧ h.nodeID < 2 ^ 64

/-- The page sequence accepted by the encoder, starting from previous page
`prev`: page numbers nonzero, within the commit size, with page data of the
page size, never the lock page, and — for snapshots — starting at page 1 and
strictly consecutive except for the skipped lock page; for non-snapshots
strictly increasing.  (This is the claim's "correctly ordered pages of
PageSize bytes".) -/
def pagesOk (hdr : Header) : Nat → List PageSpec → Bool
  | _, [] => true
  | prev, p :: rest =>
    p.header.pgno ≠ 0 ∧ p.header.pgno ≤ hdr.commit ∧
      p.data.length = hdr.pageSize ∧ p.header.pgno ≠ LockPgno hdr.pageSize ∧
      p.header.pgno < 2 ^ 32 ∧
      (if hdr.isSnapshot then
        (prev = 0 → p.header.pgno = 1) ∧
          (prev ≠ 0 →
            if prev = LockPgno hdr.pageSize - 1 then p.header.pgno = prev + 2
            else p.header.pgno = prev + 1)
       else prev < p.header.pgno) ∧
      pagesOk hdr p.header.pgno rest

/-- A valid `FileSpec`: a valid, machine-width header without the LZ4
compression flag (the decoder of this revision has no decompression path,
and the specification scopes compression out of the core), correctly
ordered pages of `PageSize` bytes, and a well-formed post-apply checksum
compatible with the deletion-file rule. -/
def FileSpec.valid (s : FileSpec) : Bool :=
  s.header.validate = none ∧ s.header.wf = true ∧
    s.header.flags &&& HeaderFlagCompressLZ4 = 0 ∧
    pagesOk s.header 0 s.pages = true ∧
    s.trailer.postApplyChecksum ≠ 0 ∧
    s.trailer.postApplyChecksum &&& ChecksumFlag ≠ 0 ∧
    s.trailer.postApplyChecksum < 2 ^ 64 ∧
    (s.header.commit = 0 → s.trailer.postApplyChecksum = ChecksumFlag)

/-- A valid one-page snapshot `FileSpec` (page size 512, commit 1), used as
the concrete instance in several closed theorems. -/
def onePageSpec : FileSpec :=
  { header := { version := 1, pageSize := 512, commit := 1, minTXID := 1,
                maxTXID := 1, timestamp := 1000 }
    pages := [{ header := { pgno := 1 }, data := List.replicate 512 50 }]
    trailer := { postApplyChecksum := ChecksumFlag ||| 7 } }

/-- The encoded bytes of `onePageSpec` (a real 636-byte LTX file). -/
def onePageFile : Bytes :=
  match onePageSpec.writeTo with
  | .ok (_, out, _) => out
  | .error _ => []

/-- A valid deletion-file `FileSpec` (`Commit == 0`, no pages). -/
def deletionSpec : FileSpec :=
  { header := { version := 1, pageSize := 512, commit := 0, minTXID := 1,
                maxTXID := 1, timestamp := 1000 }
    pages := []
    trailer := { postApplyChecksum := ChecksumFlag } }

/-- A marshalled header whose page size (1000) fails validation; the magic
and length are correct. -/
def invalidPageSizeHeader : Header := { version := 1, pageSize := 1000 }

/-- The marshalled bytes of `invalidPageSizeHeader`. -/
def invalidPageSizeHeaderBytes : Bytes := invalidPageSizeHeader.marshalBinary

/-- A decoder that has already been closed, whose source holds the bytes of
an invalid header: the instance for the `DecodeHeader` state-check claim. -/
def closedDecoderWithHeader : Decoder :=
  { r := invalidPageSizeHeaderBytes, state := .closed }

/-- An encoder that has encoded a valid deletion-file header
(`Commit == 0`) and then had its post-apply checksum set to 0. -/
def deletionEncoderZeroPostApply : Encoder :=
  ((newEncoder.encodeHeader deletionSpec.header).1).setPostApplyChecksum 0

/-- A bare encoder state in the `page` state over a deletion header, used to
instantiate the `Close` characterization. -/
def deletionPageStateEncoder : Encoder :=
  { state := .page
    header := deletionSpec.header
    trailer := { postApplyChecksum := ChecksumFlag } }

/-- An encoder in the `page` state over a snapshot header, used to
instantiate the `EncodePage` ordering characterization. -/
def snapshotPageStateEncoder : Encoder :=
  { state := .page
    header := { version := 1, pageSize := 512, commit := 4, minTXID := 1, maxTXID := 1 } }

/-- A byte-exact snapshot LTX file (one page of `0x61`, page size 512)
whose trailer's `PostApplyChecksum` is `ChecksumFlag | 1` — *not* the
checksum of its pages — while its `FileChecksum` is correct. -/
def wrongPostApplyFile : Bytes :=
  let hdr : Header := { version := 1, pageSize := 512, commit := 1, minTXID := 1,
                        maxTXID := 1, timestamp := 0 }
  let data : Bytes := List.replicate 512 97
  let body := hdr.marshalBinary ++ PageHeader.marshalBinary { pgno := 1 } ++ data ++
    PageHeader.marshalBinary { pgno := 0 }
  let postApply := ChecksumFlag ||| 1
  body ++ be64 postApply ++ be64 (ChecksumFlag ||| crc64 (body ++ be64 postApply))

/-- The decoder over `wrongPostApplyFile` after its header was decoded. -/
def wrongPostApplyDec1 : Decoder := ((newDecoder wrongPostApplyFile).decodeHeader).1

/-- ... after its single page was decoded. -/
def wrongPostApplyDec2 : Decoder := (wrongPostApplyDec1.decodePage 512).1

/-- ... after the end-of-page-block marker was consumed. -/
def wrongPostApplyDec3 : Decoder := (wrongPostApplyDec2.decodePage 512).1

/-- A decoder in the `close` state over a snapshot header whose remaining
stream is a trailer with an arbitrary post-apply value (5) and the matching
file checksum, instantiating the no-post-apply-verification theorem. -/
def closeStateSnapshotDecoder : Decoder :=
  { r := be64 5 ++ be64 (ChecksumFlag ||| crcUpd 0 (be64 5)) ++ []
    state := .close
    header := { minTXID := 1 } }

/-- The property tracked through the `fillPageBuffers` loop: the returned
page number is zero exactly when the accumulator was zero and every buffer
is empty, and otherwise it is the least pending page number (bounded by the
incoming accumulator when that was set). -/
def FillMinSpec (acc : Nat) (res : List CompactorInput × Nat) : Prop :=
  (res.2 = 0 → acc = 0 ∧ ∀ inp ∈ res.1, inp.bufHdr.pgno = 0) ∧
  (res.2 ≠ 0 →
    (res.2 = acc ∨ ∃ inp ∈ res.1, inp.bufHdr.pgno = res.2) ∧
    (∀ inp ∈ res.1, inp.bufHdr.pgno ≠ 0 → res.2 ≤ inp.bufHdr.pgno) ∧
    (acc ≠ 0 → res.2 ≤ acc))

/-- An encoder in the `page` state over a tiny snapshot header (page size
4, commit 2), used to instantiate the merge-step characterization. -/
def mergeStepEncoder : Encoder :=
  { state := .page
    header := { version := 1, pageSize := 4, commit := 2, minTXID := 1, maxTXID := 1 } }

/-- Two compactor inputs whose page buffers both hold page 1 (with
different data), used to instantiate the merge-step characterization:
the second (newest) input's data must win. -/
def mergeStepInputs : List CompactorInput :=
  [{ dec := { r := [] }, bufHdr := { pgno := 1 }, bufData := [1, 2, 3, 4] },
   { dec := { r := [] }, bufHdr := { pgno := 1 }, bufData := [9, 9, 9, 9] }]

/-- A compactor over a single input (the one-page snapshot file) whose
header has been decoded, ready for the post-sort pipeline. -/
def compactC7In : Compactor :=
  { enc := newEncoder
    headerFlags := 0
    inputs := [{ dec := ((newDecoder onePageFile).decodeHeader).1 }] }

/-- The compactor state produced by running the post-sort pipeline on
`compactC7In`. -/
def compactC7Out : Compactor := (Compactor.compactFromSorted ⟨none⟩ compactC7In).1

/-- The byte sequence of the page frames of a `FileSpec` (page header then
page data, per page). -/
def framesBytes : List PageSpec → Bytes
  | [] => []
  | p :: rest => PageHeader.marshalBinary p.header ++ p.data ++ framesBytes rest

/-- The body of the encoded file: header, page frames, and the terminating
zero page header — everything before the trailer. -/
def bodyBytes (s : FileSpec) : Bytes :=
  Header.marshalBinary s.header ++ framesBytes s.pages ++ PageHeader.marshalBinary {}

/-- The trailer `WriteTo` resolves: the spec's post-apply checksum plus the
file checksum computed over the body and the trailer's own first eight
bytes. -/
def resolvedTrailer (s : FileSpec) : Trailer :=
  { postApplyChecksum := s.trailer.postApplyChecksum
    fileChecksum :=
      ChecksumFlag ||| crcUpd 0 (bodyBytes s ++ be64 s.trailer.postApplyChecksum) }

/-- The complete encoded byte stream of a `FileSpec`. -/
def fileBytes (s : FileSpec) : Bytes :=
  bodyBytes s ++ Trailer.marshalBinary (resolvedTrailer s)

/-! ## Supporting lemmas -/

/-- `io.ReadFull` over a stream that starts with exactly the requested
bytes. -/
theorem readFull_append (a b : Bytes) (n : Nat) (h : a.length = n) :
    readFull (a ++ b) n = .ok (a, b) := by
  subst h
  simp [readFull, List.take_left, List.drop_left]

theorem natSeq_eq (n : Nat) (k : Nat → Nat) : natSeq n k = k n := by
  cases n <;> rfl

theorem crcLoop_eq_foldl (l : Bytes) (c : Nat) : crcLoop l c = l.foldl crc64step c := by
  induction l generalizing c with
  | nil => rfl
  | cons v rest ih => rw [crcLoop, natSeq_eq, List.foldl_cons, ih]

theorem comp64_comp64 (x : Nat) : comp64 (comp64 x) = x := by
  simp [comp64, Nat.xor_assoc]

/-- The streaming hasher is compositional: writing `a` then `b` equals
writing `a ++ b`. -/
theorem crcUpd_append (c : Nat) (a b : Bytes) :
    crcUpd (crcUpd c a) b = crcUpd c (a ++ b) := by
  simp [crcUpd, crcLoop_eq_foldl, comp64_comp64, List.foldl_append]

theorem crcUpd_nil (c : Nat) : crcUpd c [] = c := by
  simp [crcUpd, crcLoop, comp64_comp64]

theorem shiftRight_le_self (c k : Nat) : c >>> k ≤ c := by
  rw [Nat.shiftRight_eq_div_pow]
  exact Nat.div_le_self _ _

theorem crc64round_lt (c : Nat) (h : c < 2 ^ 64) : crc64round c < 2 ^ 64 := by
  unfold crc64round
  have hs : c >>> 1 < 2 ^ 64 := Nat.lt_of_le_of_lt (shiftRight_le_self c 1) h
  split
  · exact Nat.xor_lt_two_pow hs (by norm_num [isoPoly])
  · exact hs

theorem crc64tab_lt (i : Nat) (h : i < 2 ^ 64) : crc64tab i < 2 ^ 64 := by
  unfold crc64tab
  exact crc64round_lt _ (crc64round_lt _ (crc64round_lt _ (crc64round_lt _
    (crc64round_lt _ (crc64round_lt _ (crc64round_lt _ (crc64round_lt _ h)))))))

theorem crc64step_lt (c v : Nat) (h : c < 2 ^ 64) : crc64step c v < 2 ^ 64 := by
  unfold crc64step
  have ha : c &&& 255 ≤ 255 := Nat.and_le_right
  have hb : v % 256 < 256 := Nat.mod_lt _ (by norm_num)
  have h1 : (c &&& 255) ^^^ v % 256 < 2 ^ 64 :=
    Nat.xor_lt_two_pow (by omega) (by omega)
  have h2 : crc64tab ((c &&& 255) ^^^ v % 256) < 2 ^ 64 := crc64tab_lt _ h1
  have h3 : c >>> 8 < 2 ^ 64 := Nat.lt_of_le_of_lt (shiftRight_le_self c 8) h
  exact Nat.xor_lt_two_pow h2 h3

theorem comp64_lt (x : Nat) (h : x < 2 ^ 64) : comp64 x < 2 ^ 64 := by
  have hm : mask64 < 2 ^ 64 := by norm_num [mask64]
  exact Nat.xor_lt_two_pow h hm

theorem crcLoop_lt (l : Bytes) (c : Nat) (h : c < 2 ^ 64) : crcLoop l c < 2 ^ 64 := by
  induction l generalizing c with
  | nil => simpa [crcLoop] using h
  | cons v rest ih =>
    rw [crcLoop, natSeq_eq]
    exact ih _ (crc64step_lt _ _ h)

theorem crcUpd_lt (c : Nat) (p : Bytes) (h : c < 2 ^ 64) : crcUpd c p < 2 ^ 64 :=
  comp64_lt _ (crcLoop_lt _ _ (comp64_lt _ h))

theorem crc64_lt (p : Bytes) : crc64 p < 2 ^ 64 := crcUpd_lt 0 p (by norm_num)

theorem ChecksumFlag_eq : ChecksumFlag = 2 ^ 63 := by decide

theorem flag_testBit (i : Nat) : ChecksumFlag.testBit i = (decide (63 = i)) := by
  rw [ChecksumFlag_eq]
  exact Nat.testBit_two_pow

/-- Setting the checksum flag produces a nonzero value. -/
theorem flag_or_ne_zero (x : Nat) : ChecksumFlag ||| x ≠ 0 := by
  intro h
  have hb := congrArg (Nat.testBit · 63) h
  simp [Nat.testBit_lor, flag_testBit] at hb

/-- A flagged value masked with the flag is nonzero. -/
theorem flag_or_and_flag_ne_zero (x : Nat) : (ChecksumFlag ||| x) &&& ChecksumFlag ≠ 0 := by
  intro h
  have hb := congrArg (Nat.testBit · 63) h
  simp [Nat.testBit_land, Nat.testBit_lor, flag_testBit] at hb

/-- A flagged value stays within 64 bits when its payload does. -/
theorem flag_or_lt (x : Nat) (h : x < 2 ^ 64) : ChecksumFlag ||| x < 2 ^ 64 := by
  have hf : ChecksumFlag < 2 ^ 64 := by rw [ChecksumFlag_eq]; norm_num
  exact Nat.or_lt_two_pow hf h

/-- Re-flagging after an XOR with an already flagged value is the same as
flagging the plain XOR: `Flag ||| ((Flag ||| a) ^^^ b) = Flag ||| (a ^^^ b)`. -/
theorem flag_or_xor (a b : Nat) :
    ChecksumFlag ||| ((ChecksumFlag ||| a) ^^^ b) = ChecksumFlag ||| (a ^^^ b) := by
  apply Nat.eq_of_testBit_eq
  intro i
  by_cases h : 63 = i
  · subst h
    simp [Nat.testBit_lor, flag_testBit]
  · simp [Nat.testBit_lor, Nat.testBit_xor, flag_testBit, h]

/-- An XOR fold factors through its starting accumulator. -/
theorem foldl_xor_shift (l : List (Nat × Bytes)) (c : Nat) :
    l.foldl (fun a pd => a ^^^ ChecksumPage pd.1 pd.2) c =
      c ^^^ l.foldl (fun a pd => a ^^^ ChecksumPage pd.1 pd.2) 0 := by
  induction l generalizing c with
  | nil => simp
  | cons x rest ih =>
    rw [List.foldl_cons, List.foldl_cons, ih, ih (0 ^^^ ChecksumPage x.1 x.2)]
    simp [Nat.xor_assoc]

/-- The per-iteration flagged fold of `ChecksumReader` equals the flag OR-ed
onto the plain XOR fold, for a nonempty page list. -/
theorem flagFold_eq_or_fold (l : List (Nat × Bytes)) (c : Nat) (hl : l ≠ []) :
    l.foldl (fun a pd => ChecksumFlag ||| (a ^^^ ChecksumPage pd.1 pd.2)) c =
      ChecksumFlag ||| l.foldl (fun a pd => a ^^^ ChecksumPage pd.1 pd.2) c := by
  induction l generalizing c with
  | nil => exact absurd rfl hl
  | cons x rest ih =>
    rw [List.foldl_cons, List.foldl_cons]
    rcases eq_or_ne rest [] with hrest | hrest
    · subst hrest
      simp
    · rw [ih _ hrest, foldl_xor_shift rest (ChecksumFlag ||| (c ^^^ ChecksumPage x.1 x.2)),
        flag_or_xor, foldl_xor_shift rest (c ^^^ ChecksumPage x.1 x.2)]

/-- The loop of `ChecksumReader` on a page-aligned stream computes the
flagged fold over the stream's pages. -/
theorem checksumReaderLoop_ok (ps : Nat) (hps : 0 < ps) :
    ∀ (fuel : Nat) (r : Bytes) (pgno chk : Nat), ps ∣ r.length → r.length < fuel →
      checksumReaderLoop fuel r ps pgno chk =
        .ok ((pageChunks fuel r ps pgno).foldl
          (fun a pd => ChecksumFlag ||| (a ^^^ ChecksumPage pd.1 pd.2)) chk) := by
  intro fuel
  induction fuel with
  | zero => intro r pgno chk _ h; omega
  | succ f ih =>
    intro r pgno chk hdvd hlen
    rcases eq_or_ne r.length 0 with hz | hz
    · have hr : r = [] := List.length_eq_zero.mp hz
      subst hr
      simp [checksumReaderLoop, readFull, pageChunks, hps.ne', hps]
    · have hle : ps ≤ r.length := Nat.le_of_dvd (Nat.pos_of_ne_zero hz) hdvd
      have htd : r = r.take ps ++ r.drop ps := (List.take_append_drop ps r).symm
      rw [checksumReaderLoop]
      rw [show readFull r ps = .ok (r.take ps, r.drop ps) by
        rw [readFull, if_pos hle]]
      rw [pageChunks, if_neg hz, List.foldl_cons]
      exact ih (r.drop ps) (pgno + 1) _
        (by rw [List.length_drop]; exact Nat.dvd_sub' hdvd dvd_rfl)
        (by rw [List.length_drop]; omega)

/-- The loop of `ChecksumReader` on a stream that is not page-aligned ends
in `io.ErrUnexpectedEOF`. -/
theorem checksumReaderLoop_misaligned (ps : Nat) (hps : 0 < ps) :
    ∀ (fuel : Nat) (r : Bytes) (pgno chk : Nat), ¬ps ∣ r.length → r.length < fuel →
      checksumReaderLoop fuel r ps pgno chk = .error .unexpectedEOF := by
  intro fuel
  induction fuel with
  | zero => intro r pgno chk _ h; omega
  | succ f ih =>
    intro r pgno chk hdvd hlen
    have hz : r.length ≠ 0 := fun h => hdvd (h ▸ Dvd.intro 0 rfl)
    rw [checksumReaderLoop]
    rcases lt_or_le r.length ps with hlt | hle
    · rw [show readFull r ps = .error .unexpectedEOF by
        rw [readFull, if_neg (by omega), if_neg (by omega)]]
    · rw [show readFull r ps = .ok (r.take ps, r.drop ps) by
        rw [readFull, if_pos hle]]
      exact ih (r.drop ps) (pgno + 1) _
        (by
          rw [List.length_drop]
          intro hd
          exact hdvd (by
            have := Nat.dvd_add hd (dvd_refl ps)
            rwa [Nat.sub_add_cancel hle] at this))
        (by rw [List.length_drop]; omega)

theorem be64_length (a : Nat) : (be64 a).length = 8 := rfl

theorem be32_length (a : Nat) : (be32 a).length = 4 := rfl

/-- Reading back a big-endian 64-bit encoding recovers the value modulo
`2^64` (the Go `uint64` truncation). -/
theorem readBE64_be64 (a : Nat) (l : Bytes) : readBE64 (be64 a ++ l) 0 = a % 2 ^ 64 := by
  simp only [readBE64, byteAt, be64, List.cons_append, List.nil_append,
    List.getD_cons_zero, List.getD_cons_succ]
  simp only [Nat.mod_mod_of_dvd _ (dvd_refl 256)]
  rw [show (2:Nat) ^ 64 = 2 ^ 56 * 256 from by norm_num, Nat.mod_mul]
  rw [show (2:Nat) ^ 56 = 2 ^ 48 * 256 from by norm_num, Nat.mod_mul]
  rw [show (2:Nat) ^ 48 = 2 ^ 40 * 256 from by norm_num, Nat.mod_mul]
  rw [show (2:Nat) ^ 40 = 2 ^ 32 * 256 from by norm_num, Nat.mod_mul]
  rw [show (2:Nat) ^ 32 = 2 ^ 24 * 256 from by norm_num, Nat.mod_mul]
  rw [show (2:Nat) ^ 24 = 2 ^ 16 * 256 from by norm_num, Nat.mod_mul]
  rw [show (2:Nat) ^ 16 = 2 ^ 8 * 256 from by norm_num, Nat.mod_mul]
  rw [show (2:Nat) ^ 8 = 256 from by norm_num]
  ring

/-- Reading the second 64-bit field of a marshalled trailer. -/
theorem readBE64_at8 (a b : Nat) (l : Bytes) :
    readBE64 (be64 a ++ (be64 b ++ l)) 8 = b % 2 ^ 64 := by
  simp only [readBE64, byteAt, be64, List.cons_append, List.nil_append,
    List.getD_cons_zero, List.getD_cons_succ]
  simp only [Nat.mod_mod_of_dvd _ (dvd_refl 256)]
  rw [show (2:Nat) ^ 64 = 2 ^ 56 * 256 from by norm_num, Nat.mod_mul]
  rw [show (2:Nat) ^ 56 = 2 ^ 48 * 256 from by norm_num, Nat.mod_mul]
  rw [show (2:Nat) ^ 48 = 2 ^ 40 * 256 from by norm_num, Nat.mod_mul]
  rw [show (2:Nat) ^ 40 = 2 ^ 32 * 256 from by norm_num, Nat.mod_mul]
  rw [show (2:Nat) ^ 32 = 2 ^ 24 * 256 from by norm_num, Nat.mod_mul]
  rw [show (2:Nat) ^ 24 = 2 ^ 16 * 256 from by norm_num, Nat.mod_mul]
  rw [show (2:Nat) ^ 16 = 2 ^ 8 * 256 from by norm_num, Nat.mod_mul]
  rw [show (2:Nat) ^ 8 = 256 from by norm_num]
  ring

/-- Reading back a big-endian 32-bit encoding. -/
theorem readBE32_be32 (a : Nat) (l : Bytes) : readBE32 (be32 a ++ l) 0 = a % 2 ^ 32 := by
  simp only [readBE32, byteAt, be32, List.cons_append, List.nil_append,
    List.getD_cons_zero, List.getD_cons_succ]
  simp only [Nat.mod_mod_of_dvd _ (dvd_refl 256)]
  rw [show (2:Nat) ^ 32 = 2 ^ 24 * 256 from by norm_num, Nat.mod_mul]
  rw [show (2:Nat) ^ 24 = 2 ^ 16 * 256 from by norm_num, Nat.mod_mul]
  rw [show (2:Nat) ^ 16 = 2 ^ 8 * 256 from by norm_num, Nat.mod_mul]
  rw [show (2:Nat) ^ 8 = 256 from by norm_num]
  ring

/-- Byte lookup past an appended prefix. -/
theorem byteAt_append (a b : Bytes) (i : Nat) :
    byteAt (a ++ b) (a.length + i) = byteAt b i := by
  simp [byteAt, List.getD, List.getElem?_append_right (Nat.le_add_right a.length i),
    Nat.add_sub_cancel_left]

/-- Reading a 32-bit field past an appended prefix. -/
theorem readBE32_shift (a b : Bytes) (i : Nat) :
    readBE32 (a ++ b) (a.length + i) = readBE32 b i := by
  simp only [readBE32, Nat.add_assoc, byteAt_append]

/-- Reading a 64-bit field past an appended prefix. -/
theorem readBE64_shift (a b : Bytes) (i : Nat) :
    readBE64 (a ++ b) (a.length + i) = readBE64 b i := by
  simp only [readBE64, Nat.add_assoc, byteAt_append]

/-- Reading a 32-bit field past a prefix of known length. -/
theorem readBE32_skip (a b : Bytes) (k i : Nat) (ha : a.length = k) :
    readBE32 (a ++ b) (k + i) = readBE32 b i := by
  have := readBE32_shift a b i
  rwa [ha] at this

/-- Reading a 64-bit field past a prefix of known length. -/
theorem readBE64_skip (a b : Bytes) (k i : Nat) (ha : a.length = k) :
    readBE64 (a ++ b) (k + i) = readBE64 b i := by
  have := readBE64_shift a b i
  rwa [ha] at this

/-- The marshalled header is exactly `HeaderSize` bytes. -/
theorem header_marshal_length (h : Header) :
    (Header.marshalBinary h).length = HeaderSize := by
  simp [Header.marshalBinary, Header.magicBytes, be32, be64, HeaderSize]

/-- Unmarshalling a marshalled header recovers it exactly, provided every
field fits its machine width and the version is current. -/
theorem header_unmarshal_marshal (h : Header) (hwf : h.wf = true)
    (hv : h.version = Version) :
    Header.unmarshalBinary (Header.marshalBinary h) = .ok h := by
  obtain ⟨b1, b2, b3, b4, b5, b6, b7, b8, b9, b10, b11, b12⟩ :
      h.flags < 2 ^ 32 ∧ h.pageSize < 2 ^ 32 ∧ h.commit < 2 ^ 32 ∧
        h.minTXID < 2 ^ 64 ∧ h.maxTXID < 2 ^ 64 ∧ h.timestamp < 2 ^ 64 ∧
        h.preApplyChecksum < 2 ^ 64 ∧ h.walOffset < 2 ^ 64 ∧ h.walSize < 2 ^ 64 ∧
        h.walSalt1 < 2 ^ 32 ∧ h.walSalt2 < 2 ^ 32 ∧ h.nodeID < 2 ^ 64 := by
    simpa [Header.wf] using hwf
  have hmagic : (Header.marshalBinary h).take 4 = Header.magicBytes := by
    simp only [Header.marshalBinary, List.append_assoc]
    exact List.take_left' rfl
  have e_flags : readBE32 (Header.marshalBinary h) 4 = h.flags := by
    simp only [Header.marshalBinary, List.append_assoc]
    rw [show (4:Nat) = 4 + 0 from rfl, readBE32_skip (Header.magicBytes) _ 4 0 rfl]
    rw [readBE32_be32]
    exact Nat.mod_eq_of_lt b1
  have e_pageSize : readBE32 (Header.marshalBinary h) 8 = h.pageSize := by
    simp only [Header.marshalBinary, List.append_assoc]
    rw [show (8:Nat) = 4 + 4 from rfl, readBE32_skip (Header.magicBytes) _ 4 4 rfl]
    rw [show (4:Nat) = 4 + 0 from rfl, readBE32_skip (be32 h.flags) _ 4 0 rfl]
    rw [readBE32_be32]
    exact Nat.mod_eq_of_lt b2
  have e_commit : readBE32 (Header.marshalBinary h) 12 = h.commit := by
    simp only [Header.marshalBinary, List.append_assoc]
    rw [show (12:Nat) = 4 + 8 from rfl, readBE32_skip (Header.magicBytes) _ 4 8 rfl]
    rw [show (8:Nat) = 4 + 4 from rfl, readBE32_skip (be32 h.flags) _ 4 4 rfl]
    rw [show (4:Nat) = 4 + 0 from rfl, readBE32_skip (be32 h.pageSize) _ 4 0 rfl]
    rw [readBE32_be32]
    exact Nat.mod_eq_of_lt b3
  have e_minTXID : readBE64 (Header.marshalBinary h) 16 = h.minTXID := by
    simp only [Header.marshalBinary, List.append_assoc]
    rw [show (16:Nat) = 4 + 12 from rfl, readBE64_skip (Header.magicBytes) _ 4 12 rfl]
    rw [show (12:Nat) = 4 + 8 from rfl, readBE64_skip (be32 h.flags) _ 4 8 rfl]
    rw [show (8:Nat) = 4 + 4 from rfl, readBE64_skip (be32 h.pageSize) _ 4 4 rfl]
    rw [show (4:Nat) = 4 + 0 from rfl, readBE64_skip (be32 h.commit) _ 4 0 rfl]
    rw [readBE64_be64]
    exact Nat.mod_eq_of_lt b4
  have e_maxTXID : readBE64 (Header.marshalBinary h) 24 = h.maxTXID := by
    simp only [Header.marshalBinary, List.append_assoc]
    rw [show (24:Nat) = 4 + 20 from rfl, readBE64_skip (Header.magicBytes) _ 4 20 rfl]
    rw [show (20:Nat) = 4 + 16 from rfl, readBE64_skip (be32 h.flags) _ 4 16 rfl]
    rw [show (16:Nat) = 4 + 12 from rfl, readBE64_skip (be32 h.pageSize) _ 4 12 rfl]
    rw [show (12:Nat) = 4 + 8 from rfl, readBE64_skip (be32 h.commit) _ 4 8 rfl]
    rw [show (8:Nat) = 8 + 0 from rfl, readBE64_skip (be64 h.minTXID) _ 8 0 rfl]
    rw [readBE64_be64]
    exact Nat.mod_eq_of_lt b5
  have e_timestamp : readBE64 (Header.marshalBinary h) 32 = h.timestamp := by
    simp only [Header.marshalBinary, List.append_assoc]
    rw [show (32:Nat) = 4 + 28 from rfl, readBE64_skip (Header.magicBytes) _ 4 28 rfl]
    rw [show (28:Nat) = 4 + 24 from rfl, readBE64_skip (be32 h.flags) _ 4 24 rfl]
    rw [show (24:Nat) = 4 + 20 from rfl, readBE64_skip (be32 h.pageSize) _ 4 20 rfl]
    rw [show (20:Nat) = 4 + 16 from rfl, readBE64_skip (be32 h.commit) _ 4 16 rfl]
    rw [show (16:Nat) = 8 + 8 from rfl, readBE64_skip (be64 h.minTXID) _ 8 8 rfl]
    rw [show (8:Nat) = 8 + 0 from rfl, readBE64_skip (be64 h.maxTXID) _ 8 0 rfl]
    rw [readBE64_be64]
    exact Nat.mod_eq_of_lt b6
  have e_preApplyChecksum : readBE64 (Header.marshalBinary h) 40 = h.preApplyChecksum := by
    simp only [Header.marshalBinary, List.append_assoc]
    rw [show (40:Nat) = 4 + 36 from rfl, readBE64_skip (Header.magicBytes) _ 4 36 rfl]
    rw [show (36:Nat) = 4 + 32 from rfl, readBE64_skip (be32 h.flags) _ 4 32 rfl]
    rw [show (32:Nat) = 4 + 28 from rfl, readBE64_skip (be32 h.pageSize) _ 4 28 rfl]
    rw [show (28:Nat) = 4 + 24 from rfl, readBE64_skip (be32 h.commit) _ 4 24 rfl]
    rw [show (24:Nat) = 8 + 16 from rfl, readBE64_skip (be64 h.minTXID) _ 8 16 rfl]
    rw [show (16:Nat) = 8 + 8 from rfl, readBE64_skip (be64 h.maxTXID) _ 8 8 rfl]
    rw [show (8:Nat) = 8 + 0 from rfl, readBE64_skip (be64 h.timestamp) _ 8 0 rfl]
    rw [readBE64_be64]
    exact Nat.mod_eq_of_lt b7
  have e_walOffset : readBE64 (Header.marshalBinary h) 48 = h.walOffset := by
    simp only [Header.marshalBinary, List.append_assoc]
    rw [show (48:Nat) = 4 + 44 from rfl, readBE64_skip (Header.magicBytes) _ 4 44 rfl]
    rw [show (44:Nat) = 4 + 40 from rfl, readBE64_skip (be32 h.flags) _ 4 40 rfl]
    rw [show (40:Nat) = 4 + 36 from rfl, readBE64_skip (be32 h.pageSize) _ 4 36 rfl]
    rw [show (36:Nat) = 4 + 32 from rfl, readBE64_skip (be32 h.commit) _ 4 32 rfl]
    rw [show (32:Nat) = 8 + 24 from rfl, readBE64_skip (be64 h.minTXID) _ 8 24 rfl]
    rw [show (24:Nat) = 8 + 16 from rfl, readBE64_skip (be64 h.maxTXID) _ 8 16 rfl]
    rw [show (16:Nat) = 8 + 8 from rfl, readBE64_skip (be64 h.timestamp) _ 8 8 rfl]
    rw [show (8:Nat) = 8 + 0 from rfl, readBE64_skip (be64 h.preApplyChecksum) _ 8 0 rfl]
    rw [readBE64_be64]
    exact Nat.mod_eq_of_lt b8
  have e_walSize : readBE64 (Header.marshalBinary h) 56 = h.walSize := by
    simp only [Header.marshalBinary, List.append_assoc]
    rw [show (56:Nat) = 4 + 52 from rfl, readBE64_skip (Header.magicBytes) _ 4 52 rfl]
    rw [show (52:Nat) = 4 + 48 from rfl, readBE64_skip (be32 h.flags) _ 4 48 rfl]
    rw [show (48:Nat) = 4 + 44 from rfl, readBE64_skip (be32 h.pageSize) _ 4 44 rfl]
    rw [show (44:Nat) = 4 + 40 from rfl, readBE64_skip (be32 h.commit) _ 4 40 rfl]
    rw [show (40:Nat) = 8 + 32 from rfl, readBE64_skip (be64 h.minTXID) _ 8 32 rfl]
    rw [show (32:Nat) = 8 + 24 from rfl, readBE64_skip (be64 h.maxTXID) _ 8 24 rfl]
    rw [show (24:Nat) = 8 + 16 from rfl, readBE64_skip (be64 h.timestamp) _ 8 16 rfl]
    rw [show (16:Nat) = 8 + 8 from rfl, readBE64_skip (be64 h.preApplyChecksum) _ 8 8 rfl]
    rw [show (8:Nat) = 8 + 0 from rfl, readBE64_skip (be64 h.walOffset) _ 8 0 rfl]
    rw [readBE64_be64]
    exact Nat.mod_eq_of_lt b9
  have e_walSalt1 : readBE32 (Header.marshalBinary h) 64 = h.walSalt1 := by
    simp only [Header.marshalBinary, List.append_assoc]
    rw [show (64:Nat) = 4 + 60 from rfl, readBE32_skip (Header.magicBytes) _ 4 60 rfl]
    rw [show (60:Nat) = 4 + 56 from rfl, readBE32_skip (be32 h.flags) _ 4 56 rfl]
    rw [show (56:Nat) = 4 + 52 from rfl, readBE32_skip (be32 h.pageSize) _ 4 52 rfl]
    rw [show (52:Nat) = 4 + 48 from rfl, readBE32_skip (be32 h.commit) _ 4 48 rfl]
    rw [show (48:Nat) = 8 + 40 from rfl, readBE32_skip (be64 h.minTXID) _ 8 40 rfl]
    rw [show (40:Nat) = 8 + 32 from rfl, readBE32_skip (be64 h.maxTXID) _ 8 32 rfl]
    rw [show (32:Nat) = 8 + 24 from rfl, readBE32_skip (be64 h.timestamp) _ 8 24 rfl]
    rw [show (24:Nat) = 8 + 16 from rfl, readBE32_skip (be64 h.preApplyChecksum) _ 8 16 rfl]
    rw [show (16:Nat) = 8 + 8 from rfl, readBE32_skip (be64 h.walOffset) _ 8 8 rfl]
    rw [show (8:Nat) = 8 + 0 from rfl, readBE32_skip (be64 h.walSize) _ 8 0 rfl]
    rw [readBE32_be32]
    exact Nat.mod_eq_of_lt b10
  have e_walSalt2 : readBE32 (Header.marshalBinary h) 68 = h.walSalt2 := by
    simp only [Header.marshalBinary, List.append_assoc]
    rw [show (68:Nat) = 4 + 64 from rfl, readBE32_skip (Header.magicBytes) _ 4 64 rfl]
    rw [show (64:Nat) = 4 + 60 from rfl, readBE32_skip (be32 h.flags) _ 4 60 rfl]
    rw [show (60:Nat) = 4 + 56 from rfl, readBE32_skip (be32 h.pageSize) _ 4 56 rfl]
    rw [show (56:Nat) = 4 + 52 from rfl, readBE32_skip (be32 h.commit) _ 4 52 rfl]
    rw [show (52:Nat) = 8 + 44 from rfl, readBE32_skip (be64 h.minTXID) _ 8 44 rfl]
    rw [show (44:Nat) = 8 + 36 from rfl, readBE32_skip (be64 h.maxTXID) _ 8 36 rfl]
    rw [show (36:Nat) = 8 + 28 from rfl, readBE32_skip (be64 h.timestamp) _ 8 28 rfl]
    rw [show (28:Nat) = 8 + 20 from rfl, readBE32_skip (be64 h.preApplyChecksum) _ 8 20 rfl]
    rw [show (20:Nat) = 8 + 12 from rfl, readBE32_skip (be64 h.walOffset) _ 8 12 rfl]
    rw [show (12:Nat) = 8 + 4 from rfl, readBE32_skip (be64 h.walSize) _ 8 4 rfl]
    rw [show (4:Nat) = 4 + 0 from rfl, readBE32_skip (be32 h.walSalt1) _ 4 0 rfl]
    rw [readBE32_be32]
    exact Nat.mod_eq_of_lt b11
  have e_nodeID : readBE64 (Header.marshalBinary h) 72 = h.nodeID := by
    simp only [Header.marshalBinary, List.append_assoc]
    rw [show (72:Nat) = 4 + 68 from rfl, readBE64_skip (Header.magicBytes) _ 4 68 rfl]
    rw [show (68:Nat) = 4 + 64 from rfl, readBE64_skip (be32 h.flags) _ 4 64 rfl]
    rw [show (64:Nat) = 4 + 60 from rfl, readBE64_skip (be32 h.pageSize) _ 4 60 rfl]
    rw [show (60:Nat) = 4 + 56 from rfl, readBE64_skip (be32 h.commit) _ 4 56 rfl]
    rw [show (56:Nat) = 8 + 48 from rfl, readBE64_skip (be64 h.minTXID) _ 8 48 rfl]
    rw [show (48:Nat) = 8 + 40 from rfl, readBE64_skip (be64 h.maxTXID) _ 8 40 rfl]
    rw [show (40:Nat) = 8 + 32 from rfl, readBE64_skip (be64 h.timestamp) _ 8 32 rfl]
    rw [show (32:Nat) = 8 + 24 from rfl, readBE64_skip (be64 h.preApplyChecksum) _ 8 24 rfl]
    rw [show (24:Nat) = 8 + 16 from rfl, readBE64_skip (be64 h.walOffset) _ 8 16 rfl]
    rw [show (16:Nat) = 8 + 8 from rfl, readBE64_skip (be64 h.walSize) _ 8 8 rfl]
    rw [show (8:Nat) = 4 + 4 from rfl, readBE64_skip (be32 h.walSalt1) _ 4 4 rfl]
    rw [show (4:Nat) = 4 + 0 from rfl, readBE64_skip (be32 h.walSalt2) _ 4 0 rfl]
    rw [readBE64_be64]
    exact Nat.mod_eq_of_lt b12
  rw [Header.unmarshalBinary]
  rw [if_neg (by rw [header_marshal_length h]; decide)]
  simp only []
  rw [if_neg (by simp [hmagic])]
  rw [e_flags, e_pageSize, e_commit, e_minTXID, e_maxTXID, e_timestamp, e_preApplyChecksum, e_walOffset, e_walSize, e_walSalt1, e_walSalt2, e_nodeID, ← hv]

/-- Unmarshalling a marshalled page header recovers it (32-bit page
numbers). -/
theorem pageHeader_unmarshal_marshal (p : Nat) (hp : p < 2 ^ 32) :
    PageHeader.unmarshalBinary (PageHeader.marshalBinary { pgno := p }) =
      .ok { pgno := p } := by
  rw [PageHeader.marshalBinary, PageHeader.unmarshalBinary]
  rw [if_neg (by simp [be32_length, PageHeaderSize])]
  rw [show (be32 p : Bytes) = be32 p ++ [] from (List.append_nil _).symm, readBE32_be32]
  rw [Nat.mod_eq_of_lt hp]

/-- Unmarshalling a marshalled trailer recovers it (64-bit fields). -/
theorem trailer_unmarshal_marshal (t : Trailer) (h1 : t.postApplyChecksum < 2 ^ 64)
    (h2 : t.fileChecksum < 2 ^ 64) :
    Trailer.unmarshalBinary (Trailer.marshalBinary t) = .ok t := by
  rw [Trailer.marshalBinary, Trailer.unmarshalBinary]
  rw [if_neg (by simp [be64_length, TrailerSize])]
  rw [show (be64 t.postApplyChecksum ++ be64 t.fileChecksum : Bytes) =
      be64 t.postApplyChecksum ++ (be64 t.fileChecksum ++ []) from by simp]
  rw [readBE64_be64, readBE64_at8, Nat.mod_eq_of_lt h1, Nat.mod_eq_of_lt h2]

/-- The lock page of any valid page size is at least 16385, in particular
nonzero and above any small page number. -/
theorem lockPgno_ge (ps : Nat) (h : IsValidPageSize ps = true) : 16385 ≤ LockPgno ps := by
  simp only [IsValidPageSize, decide_eq_true_eq] at h
  rcases h with h | h | h | h | h | h | h | h <;> subst h <;> decide

/-- A successful `DecodePage` never returns page number zero (the zero page
header is the end-of-block marker and yields `io.EOF` instead). -/
theorem decodePage_ok_pgno_ne_zero (dec dec1 : Decoder) (bufLen : Nat)
    (hdr : PageHeader) (data : Bytes)
    (h : dec.decodePage bufLen = (dec1, .ok (hdr, data))) : hdr.pgno ≠ 0 := by
  rw [Decoder.decodePage] at h
  split at h
  · exact absurd h (by simp)
  split at h
  · exact absurd h (by simp)
  split at h
  · exact absurd h (by simp)
  split at h
  · exact absurd h (by simp)
  split at h
  · exact absurd h (by simp)
  rename_i b rest heq
  split at h
  · exact absurd h (by simp)
  rename_i hdr0 heq0
  split at h
  · exact absurd h (by simp)
  rename_i hzero
  split at h
  · exact absurd h (by simp)
  simp only [Decoder.writeToHash] at h
  split at h
  · exact absurd h (by simp)
  rename_i data0 rest0 heq1
  rw [Prod.mk.injEq] at h
  obtain ⟨-, h2⟩ := h
  rw [Except.ok.injEq, Prod.mk.injEq] at h2
  obtain ⟨h3, -⟩ := h2
  subst h3
  simpa [PageHeader.isZero] using hzero

/-- Prepending an empty slot preserves the minimum property. -/
theorem fillMin_skip (acc : Nat) (x : CompactorInput) (hzero : x.bufHdr.pgno = 0)
    (rest1 : List CompactorInput) (p1 : Nat) (hspec : FillMinSpec acc (rest1, p1)) :
    FillMinSpec acc (x :: rest1, p1) := by
  obtain ⟨hz, hnz⟩ := hspec
  constructor
  · intro hp
    refine ⟨(hz hp).1, ?_⟩
    intro inp hinp
    rcases List.mem_cons.mp hinp with hh | hh
    · subst hh; exact hzero
    · exact (hz hp).2 inp hh
  · intro hp
    obtain ⟨hex, hall, hacc⟩ := hnz hp
    refine ⟨?_, ?_, hacc⟩
    · rcases hex with hex | ⟨inp, hinp, hpg⟩
      · exact .inl hex
      · exact .inr ⟨inp, List.mem_cons_of_mem _ hinp, hpg⟩
    · intro inp hinp hnz2
      rcases List.mem_cons.mp hinp with hh | hh
      · subst hh; exact absurd hzero hnz2
      · exact hall inp hh hnz2

/-- Prepending a filled slot whose page number took part in the min update
preserves the minimum property. -/
theorem fillMin_step (acc : Nat) (x : CompactorInput) (hne : x.bufHdr.pgno ≠ 0)
    (rest1 : List CompactorInput) (p1 : Nat)
    (hspec : FillMinSpec
      (if acc = 0 ∨ x.bufHdr.pgno < acc then x.bufHdr.pgno else acc) (rest1, p1)) :
    FillMinSpec acc (x :: rest1, p1) := by
  set acc1 := if acc = 0 ∨ x.bufHdr.pgno < acc then x.bufHdr.pgno else acc with hacc1
  have hacc1ne : acc1 ≠ 0 := by
    rw [hacc1]
    split
    · exact hne
    · rename_i hc
      intro h0
      exact hc (.inl h0)
  have hacc1le : acc1 ≤ x.bufHdr.pgno := by
    rw [hacc1]
    split
    · exact le_refl _
    · rename_i hc
      omega
  have hacc1acc : acc ≠ 0 → acc1 ≤ acc := by
    intro h0
    rw [hacc1]
    split
    · rename_i hc
      omega
    · exact le_refl _
  obtain ⟨hz, hnz⟩ := hspec
  constructor
  · intro hp
    exact absurd (hz hp).1 hacc1ne
  · intro hp
    obtain ⟨hex, hall, haccp⟩ := hnz hp
    have hple : p1 ≤ acc1 := haccp hacc1ne
    refine ⟨?_, ?_, fun h0 => le_trans hple (hacc1acc h0)⟩
    · rcases hex with hex | ⟨inp, hinp, hpg⟩
      · rw [hacc1] at hex
        by_cases hcond : acc = 0 ∨ x.bufHdr.pgno < acc
        · rw [if_pos hcond] at hex
          exact .inr ⟨x, List.mem_cons_self _ _, hex.symm⟩
        · rw [if_neg hcond] at hex
          exact .inl hex
      · exact .inr ⟨inp, List.mem_cons_of_mem _ hinp, hpg⟩
    · intro inp hinp hnz2
      rcases List.mem_cons.mp hinp with hh | hh
      · subst hh
        exact le_trans hple hacc1le
      · exact hall inp hh hnz2

/-- The minimum-tracking invariant of the whole `fillPageBuffers` loop. -/
theorem fillLoop_min (bufLen : Nat) :
    ∀ (l : List CompactorInput) (i acc : Nat) (res : List CompactorInput × Nat),
      Compactor.fillLoop bufLen l i acc = .ok res → FillMinSpec acc res := by
  intro l
  induction l with
  | nil =>
    intro i acc res h
    rw [Compactor.fillLoop] at h
    injection h with h1
    subst h1
    exact ⟨fun hp => ⟨hp, by simp⟩, fun _ => ⟨.inl rfl, by simp, fun _ => le_refl _⟩⟩
  | cons input rest ih =>
    intro i acc res h
    rw [Compactor.fillLoop] at h
    by_cases hz : input.bufHdr.isZero
    · rw [if_pos hz] at h
      have hzero : input.bufHdr.pgno = 0 := by simpa [PageHeader.isZero] using hz
      split at h
      · -- DecodePage returned io.EOF: the slot stays empty
        rename_i dec1 heq1
        split at h
        · exact absurd h (by simp)
        · rename_i rest1 p1 hrec
          injection h with h1
          subst h1
          exact fillMin_skip acc ⟨dec1, input.bufHdr, input.bufData⟩ hzero rest1 p1
            (ih (i + 1) acc (rest1, p1) hrec)
      · exact absurd h (by simp)
      · -- DecodePage succeeded: the slot is filled and joins the min update
        rename_i dec1 hdr1 data1 heq
        split at h
        · exact absurd h (by simp)
        · rename_i rest1 p1 hrec
          injection h with h1
          subst h1
          have hne : hdr1.pgno ≠ 0 := decodePage_ok_pgno_ne_zero _ _ _ _ _ heq
          exact fillMin_step acc ⟨dec1, hdr1, data1⟩ hne rest1 p1
            (ih (i + 1) _ (rest1, p1) hrec)
    · rw [if_neg hz] at h
      have hne : input.bufHdr.pgno ≠ 0 := by simpa [PageHeader.isZero] using hz
      split at h
      · exact absurd h (by simp)
      · rename_i rest1 p1 hrec
        injection h with h1
        subst h1
        exact fillMin_step acc input hne rest1 p1 (ih (i + 1) _ (rest1, p1) hrec)

/-- `Encoder.write` with the LZ4 writer off appends to `out` and feeds the
hasher. -/
theorem write_false (enc : Encoder) (b : Bytes) (h : enc.zw = false) :
    enc.write b =
      { enc with out := enc.out ++ b, crc := crcUpd enc.crc b, n := enc.n + b.length } := by
  simp [Encoder.write, Encoder.writeToHash, h]

/-- The page-frame write with the LZ4 writer off, in closed form. -/
theorem writePageFrame_false (enc : Encoder) (hdr : PageHeader) (data : Bytes)
    (h : enc.zw = false) :
    enc.writePageFrame hdr data =
      ({ enc with
          out := enc.out ++ (PageHeader.marshalBinary hdr ++ data)
          crc := crcUpd enc.crc (PageHeader.marshalBinary hdr ++ data)
          n := enc.n + (PageHeader.marshalBinary hdr ++ data).length
          prevPgno := hdr.pgno
          pagesWritten := enc.pagesWritten + 1 }, .ok ()) := by
  rw [Encoder.writePageFrame]
  simp [Encoder.write, Encoder.writeToHash, h, crcUpd_append, List.append_assoc,
    Nat.add_assoc]

/-- `EncodePage` on a page satisfying every validation reduces to the raw
page-frame write. -/
theorem encodePage_valid (enc : Encoder) (hdr : PageHeader) (data : Bytes)
    (hstate : enc.state = .page)
    (hpg : hdr.pgno ≤ enc.header.commit)
    (hnz : hdr.pgno ≠ 0)
    (hlen : data.length = enc.header.pageSize)
    (hlock : hdr.pgno ≠ LockPgno enc.header.pageSize)
    (hps : IsValidPageSize enc.header.pageSize = true)
    (hord : if enc.header.isSnapshot then
        (enc.prevPgno = 0 → hdr.pgno = 1) ∧
          (enc.prevPgno ≠ 0 →
            if enc.prevPgno = LockPgno enc.header.pageSize - 1 then
              hdr.pgno = enc.prevPgno + 2
            else hdr.pgno = enc.prevPgno + 1)
      else enc.prevPgno < hdr.pgno) :
    enc.encodePage hdr data = enc.writePageFrame hdr data := by
  have h4 : hdr.validate = none := by rw [PageHeader.validate, if_neg hnz]
  rw [Encoder.encodePage]
  rw [if_neg (by simp [hstate])]
  rw [if_neg (by simp [hstate])]
  rw [if_neg (by omega)]
  rw [h4]
  rw [if_neg (by simp [hlen])]
  rw [if_neg hlock]
  cases hsnap : enc.header.isSnapshot with
  | false =>
    rw [hsnap] at hord
    simp only [Bool.false_eq_true, if_false] at hord
    rw [if_neg (Nat.not_le.mpr hord)]
    simp
  | true =>
    rw [hsnap] at hord
    simp only [if_true] at hord ⊢
    obtain ⟨ho1, ho2⟩ := hord
    by_cases hprev : enc.prevPgno = 0
    · rw [if_neg (by simp [hprev, ho1 hprev])]
      rw [if_neg (by have := lockPgno_ge _ hps; omega)]
      rw [if_neg (by simp [hprev])]
    · rw [if_neg (by simp [hprev])]
      have spec := ho2 hprev
      by_cases hpl : enc.prevPgno = LockPgno enc.header.pageSize - 1
      · rw [if_pos hpl]
        rw [if_neg (by rw [if_pos hpl] at spec; simp [spec])]
      · rw [if_neg hpl]
        rw [if_neg (by rw [if_neg hpl] at spec; simp [spec])]

/-- The page-encoding loop of `WriteTo` on a correctly ordered page list:
it succeeds and extends the output, the hash and the byte count by exactly
the page frames. -/
theorem writePages_ok (hdr : Header) (hps : IsValidPageSize hdr.pageSize = true) :
    ∀ (pages : List PageSpec) (enc : Encoder) (i : Nat),
      enc.state = .page → enc.zw = false → enc.header = hdr →
      pagesOk hdr enc.prevPgno pages = true →
      ∃ enc', FileSpec.writePages enc i pages = .ok enc' ∧
        enc'.state = .page ∧ enc'.zw = false ∧ enc'.header = hdr ∧
        enc'.trailer = enc.trailer ∧
        enc'.out = enc.out ++ framesBytes pages ∧
        enc'.crc = crcUpd enc.crc (framesBytes pages) ∧
        enc'.n = enc.n + (framesBytes pages).length := by
  intro pages
  induction pages with
  | nil =>
    intro enc i hstate hzw hhdr hok
    exact ⟨enc, by rw [FileSpec.writePages], hstate, hzw, hhdr, rfl,
      by simp [framesBytes], by simp [framesBytes, crcUpd_nil], by simp [framesBytes]⟩
  | cons p rest ih =>
    intro enc i hstate hzw hhdr hok
    rw [pagesOk] at hok
    simp only [decide_eq_true_eq] at hok
    obtain ⟨h1, h2, h3, h4, h5, h6, h7⟩ := hok
    have hrw := encodePage_valid enc p.header p.data hstate
      (by rw [hhdr]; exact h2) h1 (by rw [hhdr]; exact h3) (by rw [hhdr]; exact h4)
      (by rw [hhdr]; exact hps) (by rw [hhdr]; exact h6)
    obtain ⟨enc', he, s1, s2, s3, s4, s5, s6, s7⟩ :=
      ih { enc with
            out := enc.out ++ (PageHeader.marshalBinary p.header ++ p.data)
            crc := crcUpd enc.crc (PageHeader.marshalBinary p.header ++ p.data)
            n := enc.n + (PageHeader.marshalBinary p.header ++ p.data).length
            prevPgno := p.header.pgno
            pagesWritten := enc.pagesWritten + 1 } (i + 1) hstate hzw hhdr h7
    refine ⟨enc', ?_, s1, s2, s3, by rw [s4], ?_, ?_, ?_⟩
    · rw [FileSpec.writePages, hrw, writePageFrame_false enc _ _ hzw]
      exact he
    · rw [s5]
      simp [framesBytes, List.append_assoc]
    · rw [s6]
      simp [framesBytes, crcUpd_append, List.append_assoc]
    · rw [s7]
      simp [framesBytes, Nat.add_assoc]

/-- A header that validates has a valid page size. -/
theorem validate_pageSize (h : Header) (hv : h.validate = none) :
    IsValidPageSize h.pageSize = true := by
  rw [Header.validate] at hv
  by_cases h1 : h.version ≠ Version
  · rw [if_pos h1] at hv
    cases hv
  · rw [if_neg h1] at hv
    by_cases h2 : ¬IsValidHeaderFlags h.flags
    · rw [if_pos h2] at hv
      cases hv
    · rw [if_neg h2] at hv
      by_cases h3 : ¬IsValidPageSize h.pageSize
      · rw [if_pos h3] at hv
        cases hv
      · simpa using h3

/-- A header that validates carries the current version. -/
theorem validate_version (h : Header) (hv : h.validate = none) : h.version = Version := by
  rw [Header.validate] at hv
  by_cases h1 : h.version ≠ Version
  · rw [if_pos h1] at hv
    cases hv
  · simpa using h1

/-- `EncodeHeader` on a valid header with the LZ4 flag clear, in closed
form. -/
theorem encodeHeader_valid (enc : Encoder) (hdr : Header)
    (hstate : enc.state = .header) (hzw : enc.zw = false)
    (hval : hdr.validate = none)
    (hflags : hdr.flags &&& HeaderFlagCompressLZ4 = 0) :
    enc.encodeHeader hdr =
      ({ enc with
          out := enc.out ++ Header.marshalBinary hdr
          crc := crcUpd 0 (Header.marshalBinary hdr)
          n := enc.n + (Header.marshalBinary hdr).length
          header := hdr
          state := .page }, .ok ()) := by
  rw [Encoder.encodeHeader]
  rw [if_neg (by simp [hstate])]
  rw [if_neg (by simp [hstate])]
  rw [hval]
  simp [Encoder.write, Encoder.writeToHash, hzw, hflags]

/-- `Encoder.Close` in the page state with the LZ4 writer off and a trailer
that validates, in closed form. -/
theorem encoder_close_valid (enc : Encoder)
    (hstate : enc.state = .page) (hzw : enc.zw = false)
    (hp0 : enc.trailer.postApplyChecksum ≠ 0)
    (hpf : enc.trailer.postApplyChecksum &&& ChecksumFlag ≠ 0)
    (hcz : enc.header.commit = 0 → enc.trailer.postApplyChecksum = ChecksumFlag) :
    enc.close =
      ({ enc with
          out := enc.out ++ PageHeader.marshalBinary {} ++
            Trailer.marshalBinary
              { postApplyChecksum := enc.trailer.postApplyChecksum
                fileChecksum := ChecksumFlag |||
                  crcUpd enc.crc (PageHeader.marshalBinary {} ++
                    be64 enc.trailer.postApplyChecksum) }
          crc := crcUpd enc.crc
            (PageHeader.marshalBinary {} ++ be64 enc.trailer.postApplyChecksum)
          n := enc.n + 20
          trailer :=
            { postApplyChecksum := enc.trailer.postApplyChecksum
              fileChecksum := ChecksumFlag |||
                crcUpd enc.crc (PageHeader.marshalBinary {} ++
                  be64 enc.trailer.postApplyChecksum) }
          state := .closed }, .ok ()) := by
  rw [Encoder.close]
  rw [if_neg (by simp [hstate])]
  rw [if_neg (by simp [hstate])]
  have hfne : ChecksumFlag ≠ 0 := by decide
  by_cases hcommit : enc.header.commit = 0
  · have hflag := hcz hcommit
    simp [Encoder.write, Encoder.writeToHash, hzw, Trailer.marshalBinary, Trailer.validate,
      hp0, hpf, hfne, flag_or_ne_zero, flag_or_and_flag_ne_zero, hcommit, hflag,
      List.take_left' (be64_length enc.trailer.postApplyChecksum),
      TrailerChecksumOffset, TrailerSize, ChecksumSize, be64_length, be32_length,
      PageHeader.marshalBinary, crcUpd_append, List.append_assoc]
  · simp [Encoder.write, Encoder.writeToHash, hzw, Trailer.marshalBinary, Trailer.validate,
      hp0, hpf, hfne, flag_or_ne_zero, flag_or_and_flag_ne_zero, hcommit,
      List.take_left' (be64_length enc.trailer.postApplyChecksum),
      TrailerChecksumOffset, TrailerSize, ChecksumSize, be64_length, be32_length,
      PageHeader.marshalBinary, crcUpd_append, List.append_assoc]

/-- `FileSpec.WriteTo` on a valid spec, in closed form: it returns the
spec with the resolved trailer, the complete encoded byte stream, and the
number of hashed bytes plus the trailing checksum size. -/
theorem writeTo_ok (s : FileSpec) (h : s.valid = true) :
    s.writeTo = .ok ({ s with trailer := resolvedTrailer s }, fileBytes s,
      (bodyBytes s).length + 16) := by
  obtain ⟨hval, hwf, hlz4, hpages, hp0, hpf, hplt, hcz⟩ :
      s.header.validate = none ∧ s.header.wf = true ∧
        s.header.flags &&& HeaderFlagCompressLZ4 = 0 ∧
        pagesOk s.header 0 s.pages = true ∧
        s.trailer.postApplyChecksum ≠ 0 ∧
        s.trailer.postApplyChecksum &&& ChecksumFlag ≠ 0 ∧
        s.trailer.postApplyChecksum < 2 ^ 64 ∧
        (¬s.header.commit = 0 ∨ s.trailer.postApplyChecksum = ChecksumFlag) := by
    simpa [FileSpec.valid] using h
  have hcz : s.header.commit = 0 → s.trailer.postApplyChecksum = ChecksumFlag :=
    fun hc => hcz.elim (fun hne => absurd hc hne) id
  have hps : IsValidPageSize s.header.pageSize = true := validate_pageSize _ hval
  rw [FileSpec.writeTo]
  rw [encodeHeader_valid newEncoder s.header rfl rfl hval hlz4]
  simp only [newEncoder, List.nil_append, Nat.zero_add]
  obtain ⟨enc2, he2, s1, s2, s3, s4, s5, s6, s7⟩ :=
    writePages_ok s.header hps s.pages
      { out := Header.marshalBinary s.header
        zbuf := []
        zw := false
        state := .page
        header := s.header
        trailer := {}
        crc := crcUpd 0 (Header.marshalBinary s.header)
        n := (Header.marshalBinary s.header).length
        prevPgno := 0
        pagesWritten := 0 } 0 rfl rfl rfl hpages
  rw [he2]
  simp only [Encoder.setPostApplyChecksum]
  rw [encoder_close_valid
    { enc2 with
        trailer := { enc2.trailer with postApplyChecksum := s.trailer.postApplyChecksum } }
    s1 s2 hp0 hpf (by rw [s3]; exact hcz)]
  simp only [Except.ok.injEq, Prod.mk.injEq]
  refine ⟨?_, ?_, ?_⟩
  · -- the resolved trailer
    simp [resolvedTrailer, bodyBytes, s6, crcUpd_append, List.append_assoc, newEncoder]
  · -- the byte stream
    simp [fileBytes, bodyBytes, resolvedTrailer, Trailer.marshalBinary, s5, s6,
      crcUpd_append, List.append_assoc, newEncoder]
  · -- the byte count
    simp [bodyBytes, s7, newEncoder, header_marshal_length, HeaderSize,
      PageHeader.marshalBinary, be32_length, List.length_append]
    omega

/-- `DecodeHeader` on a stream that starts with a valid marshalled header,
in closed form. -/
theorem decodeHeader_valid (dec : Decoder) (hdr : Header) (rest : Bytes)
    (hr : dec.r = Header.marshalBinary hdr ++ rest)
    (hwf : hdr.wf = true) (hval : hdr.validate = none) :
    dec.decodeHeader =
      ({ dec with
          r := rest
          header := hdr
          state := .page
          crc := crcUpd dec.crc (Header.marshalBinary hdr)
          n := dec.n + HeaderSize }, .ok ()) := by
  have hv : hdr.version = Version := validate_version _ hval
  have hfull : readFull dec.r HeaderSize = .ok (Header.marshalBinary hdr, rest) := by
    rw [hr]
    exact readFull_append _ _ _ (header_marshal_length hdr)
  rw [Decoder.decodeHeader, hfull]
  simp [header_unmarshal_marshal hdr hwf hv, hval, Decoder.writeToHash,
    header_marshal_length]

/-- `DecodePage` on a stream that starts with a nonzero page frame, in
closed form. -/
theorem decodePage_valid (dec : Decoder) (p : Nat) (data rest : Bytes)
    (hstate : dec.state = .page)
    (hr : dec.r = be32 p ++ (data ++ rest))
    (hp0 : p ≠ 0) (hplt : p < 2 ^ 32)
    (hlen : data.length = dec.header.pageSize) :
    dec.decodePage dec.header.pageSize =
      ({ dec with
          r := rest
          crc := crcUpd dec.crc (be32 p ++ data)
          n := dec.n + (4 + data.length) }, .ok ({ pgno := p }, data)) := by
  have hfull1 : readFull dec.r PageHeaderSize = .ok (be32 p, data ++ rest) := by
    rw [hr]
    exact readFull_append _ _ _ (by simp [be32_length, PageHeaderSize])
  have hfull2 : readFull (data ++ rest) dec.header.pageSize = .ok (data, rest) :=
    readFull_append _ _ _ hlen
  have hum : PageHeader.unmarshalBinary (be32 p) = .ok { pgno := p } := by
    have hq := pageHeader_unmarshal_marshal p hplt
    rwa [PageHeader.marshalBinary] at hq
  rw [Decoder.decodePage]
  rw [if_neg (by simp [hstate]), if_neg (by simp [hstate]), if_neg (by simp [hstate]),
    if_neg (by simp)]
  rw [hfull1]
  simp [hum, PageHeader.isZero, hp0, PageHeader.validate, Decoder.writeToHash, hfull2,
    crcUpd_append, Nat.add_assoc, be32_length]

/-- `DecodePage` at the zero page header (the end-of-block marker), in
closed form. -/
theorem decodePage_zero (dec : Decoder) (rest : Bytes)
    (hstate : dec.state = .page)
    (hr : dec.r = be32 0 ++ rest) :
    dec.decodePage dec.header.pageSize =
      ({ dec with
          r := rest
          state := .close
          crc := crcUpd dec.crc (be32 0)
          n := dec.n + 4 }, .error .eof) := by
  have hfull1 : readFull dec.r PageHeaderSize = .ok (be32 0, rest) := by
    rw [hr]
    exact readFull_append _ _ _ (by simp [be32_length, PageHeaderSize])
  have hum : PageHeader.unmarshalBinary (be32 0) = .ok { pgno := 0 } := by
    have hq := pageHeader_unmarshal_marshal 0 (by norm_num)
    rwa [PageHeader.marshalBinary] at hq
  rw [Decoder.decodePage]
  rw [if_neg (by simp [hstate]), if_neg (by simp [hstate]), if_neg (by simp [hstate]),
    if_neg (by simp)]
  rw [hfull1]
  simp [hum, PageHeader.isZero, Decoder.writeToHash, be32_length]

/-- Every page of a correctly ordered page list has a nonzero 32-bit page
number and data of the page size. -/
theorem pagesOk_mem (hdr : Header) :
    ∀ (pages : List PageSpec) (prev : Nat), pagesOk hdr prev pages = true →
      ∀ p ∈ pages, p.header.pgno ≠ 0 ∧ p.header.pgno < 2 ^ 32 ∧
        p.data.length = hdr.pageSize := by
  intro pages
  induction pages with
  | nil =>
    intro prev hok p hp
    simp at hp
  | cons q rest ih =>
    intro prev hok p hp
    rw [pagesOk] at hok
    simp only [decide_eq_true_eq] at hok
    obtain ⟨h1, h2, h3, h4, h5, h6, h7⟩ := hok
    rcases List.mem_cons.mp hp with hh | hh
    · subst hh
      exact ⟨h1, h5, h3⟩
    · exact ih q.header.pgno h7 p hh

/-- The page-reading loop of `ReadFrom` over a well-formed page-frame
stream: it decodes every page, consumes the zero terminator and moves to
the `close` state. -/
theorem readPages_ok (hdr : Header) :
    ∀ (pages : List PageSpec) (dec : Decoder) (acc : List PageSpec) (fuel : Nat)
      (rest : Bytes),
      dec.state = .page → dec.header = hdr →
      dec.r = framesBytes pages ++ (PageHeader.marshalBinary {} ++ rest) →
      (∀ p ∈ pages, p.header.pgno ≠ 0 ∧ p.header.pgno < 2 ^ 32 ∧
        p.data.length = hdr.pageSize) →
      pages.length + 1 ≤ fuel →
      FileSpec.readPages fuel dec acc =
        .ok ({ dec with
            r := rest
            state := .close
            crc := crcUpd dec.crc (framesBytes pages ++ PageHeader.marshalBinary {})
            n := dec.n + ((framesBytes pages).length + 4) }, acc ++ pages) := by
  intro pages
  induction pages with
  | nil =>
    intro dec acc fuel rest hstate hhdr hr hmem hfuel
    have hr0 : dec.r = be32 0 ++ rest := by
      rw [hr]
      simp [framesBytes, PageHeader.marshalBinary]
    match fuel, hfuel with
    | fuel + 1, _ =>
      rw [FileSpec.readPages]
      rw [decodePage_zero dec rest hstate hr0]
      simp [framesBytes, PageHeader.marshalBinary]
  | cons p ps ih =>
    intro dec acc fuel rest hstate hhdr hr hmem hfuel
    obtain ⟨c1, c2, c3⟩ := hmem p (List.mem_cons_self p ps)
    have hr1 : dec.r = be32 p.header.pgno ++
        (p.data ++ (framesBytes ps ++ (PageHeader.marshalBinary {} ++ rest))) := by
      rw [hr]
      simp [framesBytes, List.append_assoc, PageHeader.marshalBinary]
    match fuel, hfuel with
    | fuel + 1, hfuel =>
      rw [FileSpec.readPages]
      rw [decodePage_valid dec p.header.pgno p.data
        (framesBytes ps ++ (PageHeader.marshalBinary {} ++ rest)) hstate hr1 c1 c2
        (by rw [hhdr]; exact c3)]
      simp only []
      refine (ih { dec with
            r := framesBytes ps ++ (PageHeader.marshalBinary {} ++ rest)
            crc := crcUpd dec.crc (be32 p.header.pgno ++ p.data)
            n := dec.n + (4 + p.data.length) }
          (acc ++ [{ header := { pgno := p.header.pgno }, data := p.data }]) fuel rest
          hstate hhdr rfl (fun q hq => hmem q (List.mem_cons_of_mem p hq)) (by
            simp at hfuel ⊢
            omega)).trans ?_
      simp [framesBytes, crcUpd_append, List.append_assoc, Nat.add_assoc,
        Nat.add_comm, Nat.add_left_comm, PageHeader.marshalBinary, be32_length,
        List.length_append]

/-- `Decoder.Close` on a stream holding a trailer whose file checksum
matches the running hash, in closed form. -/
theorem decoder_close_valid (dec : Decoder) (p fc : Nat) (rest : Bytes)
    (hstate : dec.state = .close)
    (hr : dec.r = be64 p ++ (be64 fc ++ rest))
    (hplt : p < 2 ^ 64)
    (hcrc : dec.crc < 2 ^ 64)
    (hfc : fc = ChecksumFlag ||| crcUpd dec.crc (be64 p)) :
    dec.close =
      ({ dec with
          r := rest
          state := .closed
          trailer := { postApplyChecksum := p, fileChecksum := fc }
          crc := crcUpd dec.crc (be64 p)
          n := dec.n + 8 }, .ok ()) := by
  have hfclt : fc < 2 ^ 64 := by
    rw [hfc]
    exact flag_or_lt _ (crcUpd_lt _ _ hcrc)
  have hfull : readFull dec.r TrailerSize = .ok (be64 p ++ be64 fc, rest) := by
    rw [hr, ← List.append_assoc]
    exact readFull_append _ _ _ (by simp [be64_length, TrailerSize])
  have hum : Trailer.unmarshalBinary (be64 p ++ be64 fc) =
      .ok { postApplyChecksum := p, fileChecksum := fc } := by
    have hq := trailer_unmarshal_marshal { postApplyChecksum := p, fileChecksum := fc }
      hplt hfclt
    rwa [Trailer.marshalBinary] at hq
  have htake : (be64 p ++ be64 fc).take TrailerChecksumOffset = be64 p := by
    rw [show TrailerChecksumOffset = 8 from rfl]
    exact List.take_left' (be64_length p)
  rw [Decoder.close]
  rw [if_neg (by simp [hstate]), if_neg (by simp [hstate])]
  rw [hfull]
  rw [hfc] at hum htake ⊢
  simp [hum, htake, Decoder.writeToHash, Decoder.checksum, be64_length]

/-- A page-frame byte sequence is at least as long as its page list. -/
theorem framesBytes_length_ge :
    ∀ pages : List PageSpec, pages.length ≤ (framesBytes pages).length := by
  intro pages
  induction pages with
  | nil => simp [framesBytes]
  | cons p ps ih =>
    simp [framesBytes, PageHeader.marshalBinary, be32_length, List.length_append]
    omega

/-- `FileSpec.ReadFrom` on the encoded bytes of a valid spec, in closed
form: it recovers the spec with the resolved trailer. -/
theorem readFrom_ok (s : FileSpec) (h : s.valid = true) :
    FileSpec.readFrom (fileBytes s) =
      .ok ({ s with trailer := resolvedTrailer s }, (bodyBytes s).length + 8) := by
  obtain ⟨hval, hwf, hlz4, hpages, hp0, hpf, hplt, hcz⟩ :
      s.header.validate = none ∧ s.header.wf = true ∧
        s.header.flags &&& HeaderFlagCompressLZ4 = 0 ∧
        pagesOk s.header 0 s.pages = true ∧
        s.trailer.postApplyChecksum ≠ 0 ∧
        s.trailer.postApplyChecksum &&& ChecksumFlag ≠ 0 ∧
        s.trailer.postApplyChecksum < 2 ^ 64 ∧
        (¬s.header.commit = 0 ∨ s.trailer.postApplyChecksum = ChecksumFlag) := by
    simpa [FileSpec.valid] using h
  have hmem0 := pagesOk_mem s.header s.pages 0 hpages
  have hsplit : fileBytes s = Header.marshalBinary s.header ++
      (framesBytes s.pages ++ (PageHeader.marshalBinary {} ++
        (be64 s.trailer.postApplyChecksum ++
          (be64 (ChecksumFlag |||
            crcUpd 0 (bodyBytes s ++ be64 s.trailer.postApplyChecksum)) ++ [])))) := by
    simp [fileBytes, bodyBytes, resolvedTrailer, Trailer.marshalBinary, List.append_assoc]
  have hfuel : s.pages.length + 1 ≤ (fileBytes s).length + 1 := by
    have h1 := framesBytes_length_ge s.pages
    have h2 : (fileBytes s).length = (bodyBytes s).length + 16 := by
      simp [fileBytes, Trailer.marshalBinary, be64_length, List.length_append]
    have h3 : (bodyBytes s).length =
        HeaderSize + ((framesBytes s.pages).length + 4) := by
      simp [bodyBytes, header_marshal_length, PageHeader.marshalBinary, be32_length,
        List.length_append]
    omega
  rw [FileSpec.readFrom]
  rw [decodeHeader_valid (newDecoder (fileBytes s)) s.header
    (framesBytes s.pages ++ (PageHeader.marshalBinary {} ++
      (be64 s.trailer.postApplyChecksum ++
        (be64 (ChecksumFlag |||
          crcUpd 0 (bodyBytes s ++ be64 s.trailer.postApplyChecksum)) ++ []))))
    hsplit hwf hval]
  simp only [newDecoder, Nat.zero_add]
  rw [readPages_ok s.header s.pages
    { r := framesBytes s.pages ++ (PageHeader.marshalBinary {} ++
        (be64 s.trailer.postApplyChecksum ++
          (be64 (ChecksumFlag |||
            crcUpd 0 (bodyBytes s ++ be64 s.trailer.postApplyChecksum)) ++ [])))
      header := s.header
      trailer := {}
      state := .page
      crc := crcUpd 0 (Header.marshalBinary s.header)
      n := HeaderSize }
    [] ((fileBytes s).length + 1)
    (be64 s.trailer.postApplyChecksum ++
      (be64 (ChecksumFlag |||
        crcUpd 0 (bodyBytes s ++ be64 s.trailer.postApplyChecksum)) ++ []))
    rfl rfl rfl hmem0 hfuel]
  simp only []
  rw [decoder_close_valid
    { r := be64 s.trailer.postApplyChecksum ++
        (be64 (ChecksumFlag |||
          crcUpd 0 (bodyBytes s ++ be64 s.trailer.postApplyChecksum)) ++ [])
      header := s.header
      trailer := {}
      state := .close
      crc := crcUpd (crcUpd 0 (Header.marshalBinary s.header))
        (framesBytes s.pages ++ PageHeader.marshalBinary {})
      n := HeaderSize + ((framesBytes s.pages).length + 4) }
    s.trailer.postApplyChecksum
    (ChecksumFlag ||| crcUpd 0 (bodyBytes s ++ be64 s.trailer.postApplyChecksum))
    [] rfl rfl hplt
    (crcUpd_lt _ _ (crcUpd_lt _ _ (by norm_num)))
    (by simp [bodyBytes, crcUpd_append, List.append_assoc])]
  simp only [Except.ok.injEq, Prod.mk.injEq]
  constructor
  · simp [resolvedTrailer]
  · simp [bodyBytes, header_marshal_length, HeaderSize, PageHeader.marshalBinary,
      be32_length, List.length_append]

/-- Once a page has been written (`pageWritten = true`), the rest of the
`writePageBuffer` scan only clears buffers and leaves the encoder alone. -/
theorem writeLoop_true_enc (pgno commit : Nat) :
    ∀ (l : List CompactorInput) (enc : Encoder) (res : List CompactorInput × Encoder),
      Compactor.writeLoop pgno commit l enc true = .ok res → res.2 = enc := by
  intro l
  induction l with
  | nil =>
    intro enc res h
    rw [Compactor.writeLoop] at h
    injection h with h1
    subst h1
    rfl
  | cons x rest ih =>
    intro enc res h
    rw [Compactor.writeLoop] at h
    split at h
    · split at h
      · exact absurd h (by simp)
      · rename_i rest1 enc1 hrec
        injection h with h1
        subst h1
        exact ih enc (rest1, enc1) hrec
    · split at h
      · split at h
        · exact absurd h (by simp)
        · rename_i rest1 enc1 hrec
          injection h with h1
          subst h1
          exact ih enc (rest1, enc1) hrec
      · rename_i hpw
        exact absurd rfl hpw

/-- Encoder characterization of the `writePageBuffer` scan starting with
`pageWritten = false`: if no buffer matches, or the page exceeds the commit
size, the encoder is unchanged; otherwise the first match in scan order is
encoded, exactly once. -/
theorem writeLoop_false_enc (pgno commit : Nat) :
    ∀ (l : List CompactorInput) (enc : Encoder) (res : List CompactorInput × Encoder),
      Compactor.writeLoop pgno commit l enc false = .ok res →
      ((l.find? (fun inp => inp.bufHdr.pgno = pgno) = none → res.2 = enc) ∧
        (commit < pgno → res.2 = enc) ∧
        (∀ inp, l.find? (fun inp => inp.bufHdr.pgno = pgno) = some inp →
          pgno ≤ commit → enc.encodePage inp.bufHdr inp.bufData = (res.2, .ok ()))) := by
  intro l
  induction l with
  | nil =>
    intro enc res h
    rw [Compactor.writeLoop] at h
    injection h with h1
    subst h1
    exact ⟨fun _ => rfl, fun _ => rfl, fun inp hs => by simp at hs⟩
  | cons x rest ih =>
    intro enc res h
    rw [Compactor.writeLoop] at h
    split at h
    · -- no match at the head: the head is kept and the scan continues
      rename_i hx
      have hfind : (x :: rest).find? (fun inp => inp.bufHdr.pgno = pgno) =
          rest.find? (fun inp => inp.bufHdr.pgno = pgno) := by
        rw [List.find?_cons_of_neg]
        simpa using hx
      split at h
      · exact absurd h (by simp)
      · rename_i rest1 enc1 hrec
        injection h with h1
        subst h1
        obtain ⟨i1, i2, i3⟩ := ih enc (rest1, enc1) hrec
        exact ⟨fun hn => i1 (by rwa [hfind] at hn), i2,
          fun inp hs hle => i3 inp (by rwa [hfind] at hs) hle⟩
    · -- the head matches: it is the first match in scan order
      rename_i hx
      have hx' : x.bufHdr.pgno = pgno := not_not.mp hx
      have hfind : (x :: rest).find? (fun inp => inp.bufHdr.pgno = pgno) = some x := by
        rw [List.find?_cons_of_pos]
        simpa using hx'
      split at h
      · rename_i hpw
        exact absurd hpw (by simp)
      · split at h
        · -- pgno exceeds the commit size: skip, the scan continues unwritten
          rename_i hgt
          split at h
          · exact absurd h (by simp)
          · rename_i rest1 enc1 hrec
            injection h with h1
            subst h1
            obtain ⟨-, i2, -⟩ := ih enc (rest1, enc1) hrec
            refine ⟨fun hn => by rw [hfind] at hn; exact absurd hn (by simp),
              fun hlt => i2 hlt, fun inp hs hle => absurd hgt (by omega)⟩
        · -- the head's buffer is encoded; the rest of the scan only clears
          rename_i hle
          split at h
          · exact absurd h (by simp)
          · rename_i enc1 u heq
            split at h
            · exact absurd h (by simp)
            · rename_i rest1 enc2 hrec
              injection h with h1
              subst h1
              have henc2 : enc2 = enc1 := writeLoop_true_enc pgno commit rest enc1 _ hrec
              refine ⟨fun hn => by rw [hfind] at hn; exact absurd hn (by simp),
                fun hlt => absurd hlt (by omega), ?_⟩
              intro inp hs _
              rw [hfind] at hs
              injection hs with hs1
              subst hs1
              rw [heq, henc2]

/-- The `writePageBuffer` scan clears the buffer of every input whose
pending page number matches, whatever the `pageWritten` flag. -/
theorem writeLoop_clears (pgno commit : Nat) :
    ∀ (l : List CompactorInput) (enc : Encoder) (pw : Bool)
      (res : List CompactorInput × Encoder),
      Compactor.writeLoop pgno commit l enc pw = .ok res →
      res.1 = l.map
        (fun inp => if inp.bufHdr.pgno = pgno then { inp with bufHdr := {} } else inp) := by
  intro l
  induction l with
  | nil =>
    intro enc pw res h
    rw [Compactor.writeLoop] at h
    injection h with h1
    subst h1
    rfl
  | cons x rest ih =>
    intro enc pw res h
    rw [Compactor.writeLoop] at h
    split at h
    · rename_i hx
      split at h
      · exact absurd h (by simp)
      · rename_i rest1 enc1 hrec
        injection h with h1
        subst h1
        have hxp : ¬ x.bufHdr.pgno = pgno := by simpa using hx
        simp only [List.map_cons, if_neg hxp]
        exact congrArg (List.cons x) (ih enc pw (rest1, enc1) hrec)
    · rename_i hx
      have hx' : x.bufHdr.pgno = pgno := not_not.mp hx
      split at h
      · split at h
        · exact absurd h (by simp)
        · rename_i rest1 enc1 hrec
          injection h with h1
          subst h1
          simp only [List.map_cons, if_pos hx']
          exact congrArg (List.cons _) (ih enc pw (rest1, enc1) hrec)
      · split at h
        · split at h
          · exact absurd h (by simp)
          · rename_i rest1 enc1 hrec
            injection h with h1
            subst h1
            simp only [List.map_cons, if_pos hx']
            exact congrArg (List.cons _) (ih enc pw (rest1, enc1) hrec)
        · split at h
          · exact absurd h (by simp)
          · rename_i enc1 u heq
            split at h
            · exact absurd h (by simp)
            · rename_i rest1 enc2 hrec
              injection h with h1
              subst h1
              simp only [List.map_cons, if_pos hx']
              exact congrArg (List.cons _) (ih enc1 true (rest1, enc2) hrec)

/-- Full characterization of `writePageBuffer`: all matching buffers are
cleared; the encoder is untouched when no buffer matches or the page is
beyond the commit size, and otherwise encodes exactly the newest matching
input's buffered page. -/
theorem writePageBuffer_spec (ctx : Ctx) (inputs : List CompactorInput)
    (enc : Encoder) (pgno : Nat) (outInputs : List CompactorInput) (outEnc : Encoder)
    (h : Compactor.writePageBuffer ctx inputs enc pgno = .ok (outInputs, outEnc)) :
    outInputs = clearBuffers inputs pgno ∧
      (enc.header.commit < pgno → outEnc = enc) ∧
      (newestMatch inputs pgno = none → outEnc = enc) ∧
      (∀ inp, newestMatch inputs pgno = some inp → pgno ≤ enc.header.commit →
        enc.encodePage inp.bufHdr inp.bufData = (outEnc, .ok ())) := by
  rw [Compactor.writePageBuffer] at h
  cases hw : Compactor.writeLoop pgno enc.header.commit inputs.reverse enc false with
  | error e =>
    rw [hw] at h
    exact absurd h (by simp)
  | ok p =>
    obtain ⟨revInputs, enc1⟩ := p
    rw [hw] at h
    injection h with h1
    rw [Prod.mk.injEq] at h1
    obtain ⟨h2, h3⟩ := h1
    subst h2
    subst h3
    have hcl := writeLoop_clears pgno enc.header.commit inputs.reverse enc false _ hw
    dsimp only at hcl
    obtain ⟨e1, e2, e3⟩ := writeLoop_false_enc pgno enc.header.commit inputs.reverse enc _ hw
    refine ⟨?_, e2, fun hn => e1 (by rwa [newestMatch] at hn),
      fun inp hs hle => e3 inp (by rwa [newestMatch] at hs) hle⟩
    rw [clearBuffers, hcl, ← List.map_reverse, List.reverse_reverse]

/-- `Encoder.write` never changes the header recorded in the encoder. -/
theorem write_header (enc : Encoder) (b : Bytes) : (enc.write b).header = enc.header := by
  cases hzw : enc.zw <;> simp [Encoder.write, Encoder.writeToHash, hzw]

/-- The page-frame write never changes the header recorded in the
encoder. -/
theorem writePageFrame_header (enc : Encoder) (hdr : PageHeader) (data : Bytes) :
    ((enc.writePageFrame hdr data).1).header = enc.header := by
  rw [Encoder.writePageFrame]
  show ((enc.write hdr.marshalBinary).write data).header = enc.header
  rw [write_header, write_header]

/-- `EncodePage` never changes the header recorded in the encoder. -/
theorem encodePage_header (enc : Encoder) (hdr : PageHeader) (data : Bytes) :
    ((enc.encodePage hdr data).1).header = enc.header := by
  rw [Encoder.encodePage]
  repeat' split
  all_goals try rfl
  all_goals try simp only []
  all_goals repeat' split
  all_goals first | rfl | exact writePageFrame_header _ _ _

/-- The `writePageBuffer` scan never changes the header recorded in the
encoder. -/
theorem writeLoop_header (pgno commit : Nat) :
    ∀ (l : List CompactorInput) (enc : Encoder) (pw : Bool)
      (res : List CompactorInput × Encoder),
      Compactor.writeLoop pgno commit l enc pw = .ok res → res.2.header = enc.header := by
  intro l
  induction l with
  | nil =>
    intro enc pw res h
    rw [Compactor.writeLoop] at h
    injection h with h1
    subst h1
    rfl
  | cons x rest ih =>
    intro enc pw res h
    rw [Compactor.writeLoop] at h
    split at h
    · split at h
      · exact absurd h (by simp)
      · rename_i rest1 enc1 hrec
        injection h with h1
        subst h1
        exact ih enc pw (rest1, enc1) hrec
    · split at h
      · split at h
        · exact absurd h (by simp)
        · rename_i rest1 enc1 hrec
          injection h with h1
          subst h1
          exact ih enc pw (rest1, enc1) hrec
      · split at h
        · split at h
          · exact absurd h (by simp)
          · rename_i rest1 enc1 hrec
            injection h with h1
            subst h1
            exact ih enc pw (rest1, enc1) hrec
        · split at h
          · exact absurd h (by simp)
          · rename_i enc1 u heq
            split at h
            · exact absurd h (by simp)
            · rename_i rest1 enc2 hrec
              injection h with h1
              subst h1
              have h2 := ih enc1 true (rest1, enc2) hrec
              have h3 := encodePage_header enc x.bufHdr x.bufData
              rw [heq] at h3
              exact h2.trans h3

/-- `writePageBuffer` never changes the header recorded in the encoder. -/
theorem writePageBuffer_header (ctx : Ctx) (inputs : List CompactorInput)
    (enc : Encoder) (pgno : Nat) (res : List CompactorInput × Encoder)
    (h : Compactor.writePageBuffer ctx inputs enc pgno = .ok res) :
    res.2.header = enc.header := by
  rw [Compactor.writePageBuffer] at h
  split at h
  · exact absurd h (by simp)
  · rename_i revInputs enc1 hw
    injection h with h1
    subst h1
    exact writeLoop_header pgno enc.header.commit inputs.reverse enc false (revInputs, enc1) hw

/-- The page-merge loop never changes the header recorded in the encoder. -/
theorem mergeLoop_header (ctx : Ctx) :
    ∀ (fuel : Nat) (inputs : List CompactorInput) (enc : Encoder)
      (res : List CompactorInput × Encoder),
      Compactor.mergeLoop ctx fuel inputs enc = .ok res → res.2.header = enc.header := by
  intro fuel
  induction fuel with
  | zero =>
    intro inputs enc res h
    rw [Compactor.mergeLoop] at h
    exact absurd h (by simp)
  | succ fuel ih =>
    intro inputs enc res h
    rw [Compactor.mergeLoop] at h
    split at h
    · exact absurd h (by simp)
    · rename_i inputs1 pgno hfill
      split at h
      · injection h with h1
        subst h1
        rfl
      · split at h
        · exact absurd h (by simp)
        · rename_i inputs2 enc2 hw
          have h2 := ih inputs2 enc2 res h
          have h3 := writePageBuffer_header ctx inputs1 enc pgno (inputs2, enc2) hw
          exact h2.trans h3

/-- `writePageBlock` never changes the header recorded in the compactor's
encoder. -/
theorem writePageBlock_header (ctx : Ctx) (c c1 : Compactor)
    (h : Compactor.writePageBlock ctx c = .ok c1) : c1.enc.header = c.enc.header := by
  rw [Compactor.writePageBlock] at h
  split at h
  · exact absurd h (by simp)
  · rename_i inputs2 enc2 hml
    injection h with h1
    subst h1
    exact mergeLoop_header ctx _ _ _ _ hml

/-- A successful `EncodeHeader` records exactly the header it was given. -/
theorem encodeHeader_ok_header (enc : Encoder) (hdr : Header) (enc1 : Encoder) (u : Unit)
    (h : enc.encodeHeader hdr = (enc1, .ok u)) : enc1.header = hdr := by
  rw [Encoder.encodeHeader] at h
  split at h
  · injection h with h1 h2
    exact absurd h2 (by simp)
  · split at h
    · injection h with h1 h2
      exact absurd h2 (by simp)
    · split at h
      · injection h with h1 h2
        exact absurd h2 (by simp)
      · injection h with h1 h2
        rw [← h1]
        by_cases hf : hdr.flags &&& HeaderFlagCompressLZ4 ≠ 0 <;>
          cases hzw : enc.zw <;>
            simp [hf, hzw, Encoder.write, Encoder.writeToHash]

/-- `Encoder.Close` never changes the header recorded in the encoder. -/
theorem close_header (enc : Encoder) : ((enc.close).1).header = enc.header := by
  rw [Encoder.close]
  simp only [Encoder.write, Encoder.writeToHash]
  repeat' split
  all_goals rfl

/-- `Encoder.Close` never changes the trailer's post-apply checksum (it
only fills in the file checksum). -/
theorem close_postApply (enc : Encoder) :
    ((enc.close).1).trailer.postApplyChecksum = enc.trailer.postApplyChecksum := by
  rw [Encoder.close]
  simp only [Encoder.write, Encoder.writeToHash]
  repeat' split
  all_goals rfl

/-- The page-merge loop never consults the context it is handed. -/
theorem mergeLoop_ctx (ctx1 ctx2 : Ctx) :
    ∀ (fuel : Nat) (inputs : List CompactorInput) (enc : Encoder),
      Compactor.mergeLoop ctx1 fuel inputs enc = Compactor.mergeLoop ctx2 fuel inputs enc := by
  intro fuel
  induction fuel with
  | zero => intro inputs enc; rfl
  | succ f ih =>
    intro inputs enc
    rw [Compactor.mergeLoop, Compactor.mergeLoop]
    rw [show Compactor.fillPageBuffers ctx1 inputs enc.header.pageSize
      = Compactor.fillPageBuffers ctx2 inputs enc.header.pageSize from rfl]
    cases Compactor.fillPageBuffers ctx2 inputs enc.header.pageSize with
    | error e => rfl
    | ok p =>
      obtain ⟨inputs1, pgno⟩ := p
      by_cases hp : pgno = 0
      · simp [hp]
      · simp only [hp, if_false]
        rw [show Compactor.writePageBuffer ctx1 inputs1 enc pgno
          = Compactor.writePageBuffer ctx2 inputs1 enc pgno from rfl]
        cases Compactor.writePageBuffer ctx2 inputs1 enc pgno with
        | error e => rfl
        | ok q => exact ih q.1 q.2

/-- `writePageBlock` never consults its context. -/
theorem writePageBlock_ctx (ctx1 ctx2 : Ctx) (c : Compactor) :
    c.writePageBlock ctx1 = c.writePageBlock ctx2 := by
  rw [Compactor.writePageBlock, Compactor.writePageBlock, mergeLoop_ctx ctx1 ctx2]

/-- The post-sort compaction pipeline never consults its context. -/
theorem compactFromSorted_ctx (ctx1 ctx2 : Ctx) (c : Compactor) :
    Compactor.compactFromSorted ctx1 c = Compactor.compactFromSorted ctx2 c := by
  simp only [Compactor.compactFromSorted, writePageBlock_ctx ctx1 ctx2]

/-! ## Claim theorems -/

/-- **C1** (code bug).  The claim says a failing input-header decode makes
`Compactor.Compact` return that error; the code's bare `return` drops it.
Evaluated at the failing input: a compactor over one empty byte stream.
Decoding that input's header fails with `io.EOF`, yet `Compact` reports no
error. -/
theorem compact_drops_header_decode_error :
    ((newCompactor [([] : Bytes)]).compact { err := none }).2 = none ∧
    ((newDecoder ([] : Bytes)).decodeHeader).2 = .error .eof := by decide

/-- **C3** (corrected, amended claim).  `ChecksumReader` reads full pages
numbered from 1 and XOR-folds their page checksums; a misaligned input
yields `io.ErrUnexpectedEOF`; on success the result is `ChecksumFlag` OR-ed
onto the fold whenever the input holds at least one page, but an empty
input returns 0 — the flag bit is *not* set in that case. -/
theorem checksumReader_characterization (r : Bytes) (ps : Nat) (hps : 0 < ps) :
    (¬ps ∣ r.length → ChecksumReader r ps = .error .unexpectedEOF) ∧
    (r = [] → ChecksumReader r ps = .ok 0) ∧
    (ps ∣ r.length → r ≠ [] →
      ChecksumReader r ps =
        .ok (ChecksumFlag ||| dbXorFold (pageChunks (r.length + 1) r ps 1))) := by
  refine ⟨?_, ?_, ?_⟩
  · intro hdvd
    exact checksumReaderLoop_misaligned ps hps _ r 1 0 hdvd (by omega)
  · intro hr
    subst hr
    rw [ChecksumReader, checksumReaderLoop_ok ps hps _ _ 1 0 (by simp) (by simp)]
    simp [pageChunks]
  · intro hdvd hne
    rw [ChecksumReader, checksumReaderLoop_ok ps hps _ _ 1 0 hdvd (by omega)]
    have hchunks : pageChunks (r.length + 1) r ps 1 ≠ [] := by
      cases r with
      | nil => exact absurd rfl hne
      | cons a l => simp [pageChunks]
    rw [flagFold_eq_or_fold _ 0 hchunks, dbXorFold]

/-- Witness for `checksumReader_characterization` at a concrete two-page
input. -/
theorem checksumReader_characterization_witness :
    0 < 2 ∧
    ((¬2 ∣ ([1, 2, 3, 4] : Bytes).length →
        ChecksumReader [1, 2, 3, 4] 2 = .error .unexpectedEOF) ∧
      (([1, 2, 3, 4] : Bytes) = [] → ChecksumReader [1, 2, 3, 4] 2 = .ok 0) ∧
      (2 ∣ ([1, 2, 3, 4] : Bytes).length → ([1, 2, 3, 4] : Bytes) ≠ [] →
        ChecksumReader [1, 2, 3, 4] 2 =
          .ok (ChecksumFlag |||
            dbXorFold (pageChunks (([1, 2, 3, 4] : Bytes).length + 1) [1, 2, 3, 4] 2 1)))) :=
  ⟨by decide, checksumReader_characterization [1, 2, 3, 4] 2 (by decide)⟩

/-- Counterexample to **C3** as stated: on an empty input `ChecksumReader`
returns 0, whose `ChecksumFlag` bit is clear — not `ChecksumFlag | fold`. -/
theorem checksumReader_empty_returns_zero :
    ChecksumReader ([] : Bytes) 512 = .ok 0 ∧ (0 : Nat) ≠ ChecksumFlag ||| 0 := by decide

/-- **C9** (corrected, amended claim).  `Compactor.Compact` receives the
cancellation context but never consults it: its entire result — output and
error alike — is identical under every context, so cancellation neither
stops the page-merge loop nor surfaces the cancellation error. -/
theorem compact_ignores_context (ctx1 ctx2 : Ctx) (c : Compactor) :
    c.compact ctx1 = c.compact ctx2 := by
  simp only [Compactor.compact, compactFromSorted_ctx ctx1 ctx2]

set_option maxRecDepth 1000000 in
/-- Counterexample to **C9** as stated: compacting a real one-page LTX file
under an already-cancelled context runs the per-page merge iteration (one
page is written) and returns success, not the cancellation error. -/
theorem compact_succeeds_despite_cancellation :
    ((newCompactor [onePageFile]).compact { err := some .contextCanceled }).2 = none ∧
    ((newCompactor [onePageFile]).compact { err := some .contextCanceled }).1.enc.pagesWritten = 1 ∧
    onePageFile.length = 636 := by
  refine ⟨by decide, by decide, by decide⟩

/-- **C10** (confirmed).  `Decoder.DecodeHeader` performs no state-machine
check: in *any* starting state it consumes `HeaderSize` bytes, overwrites
the stored header, feeds the hasher, and moves to the `page` state before
validating — so after a header-validation error the decoder sits in the
`page` state and subsequent `DecodePage` calls proceed. -/
theorem decodeHeader_ignores_state (dec : Decoder) (b rest : Bytes)
    (hr : dec.r = b ++ rest) (hlen : b.length = HeaderSize)
    (hmagic : b.take 4 = Header.magicBytes) :
    ∃ hdr, Header.unmarshalBinary b = .ok hdr ∧
      dec.decodeHeader =
        ({ dec with
            r := rest
            header := hdr
            crc := crcUpd dec.crc b
            n := dec.n + HeaderSize
            state := .page },
          match hdr.validate with
          | some e => .error e
          | none => .ok ()) := by
  have hfull : readFull dec.r HeaderSize = .ok (b, rest) := by
    rw [hr]
    exact readFull_append b rest _ hlen
  obtain ⟨hdr, hok⟩ : ∃ hdr, Header.unmarshalBinary b = .ok hdr := by
    rw [Header.unmarshalBinary, if_neg (by omega), if_neg (by simp [hmagic])]
    exact ⟨_, rfl⟩
  refine ⟨hdr, hok, ?_⟩
  simp only [Decoder.decodeHeader, hfull, hok, Decoder.writeToHash]
  cases hdr.validate with
  | some e => simp [hlen]
  | none => simp [hlen]

/-- Witness for `decodeHeader_ignores_state`: a *closed* decoder holding an
invalid header still consumes it and lands in the `page` state. -/
theorem decodeHeader_ignores_state_witness :
    (closedDecoderWithHeader.r = invalidPageSizeHeaderBytes ++ [] ∧
      invalidPageSizeHeaderBytes.length = HeaderSize ∧
      invalidPageSizeHeaderBytes.take 4 = Header.magicBytes) ∧
    (∃ hdr, Header.unmarshalBinary invalidPageSizeHeaderBytes = .ok hdr ∧
      closedDecoderWithHeader.decodeHeader =
        ({ closedDecoderWithHeader with
            r := []
            header := hdr
            crc := crcUpd closedDecoderWithHeader.crc invalidPageSizeHeaderBytes
            n := closedDecoderWithHeader.n + HeaderSize
            state := .page },
          match hdr.validate with
          | some e => .error e
          | none => .ok ())) :=
  ⟨⟨by decide, by decide, by decide⟩,
    decodeHeader_ignores_state closedDecoderWithHeader invalidPageSizeHeaderBytes []
      (by decide) (by decide) (by decide)⟩

/-- **C6** (corrected, amended claim).  For an encoder in the `page` state
whose header has `Commit == 0` (deletion file), `Close` succeeds exactly
when the post-apply checksum is `ChecksumFlag`; a value carrying the
`ChecksumFlag` bit but different from it fails with "post-apply checksum
must be empty for zero-length database", while 0 and values without the
flag bit fail the earlier trailer validation with its own messages. -/
theorem encoder_close_commit_zero (enc : Encoder) (hstate : enc.state = .page)
    (hcommit : enc.header.commit = 0) :
    (enc.close).2 =
      (if enc.trailer.postApplyChecksum = 0 then
        .error (.wrap .validateTrailer .postApplyRequired)
      else if enc.trailer.postApplyChecksum &&& ChecksumFlag = 0 then
        .error (.wrap .validateTrailer .invalidPostApplyFormat)
      else if enc.trailer.postApplyChecksum = ChecksumFlag then .ok ()
      else .error .postApplyMustBeEmptyForZeroLength) := by
  have hflagflag : ChecksumFlag &&& ChecksumFlag ≠ 0 := by decide
  have hfne : ChecksumFlag ≠ 0 := by decide
  rw [Encoder.close]
  rw [if_neg (by rw [hstate]; intro h; cases h), if_neg (by rw [hstate]; simp)]
  simp only [Encoder.write, Encoder.writeToHash, Trailer.validate, Trailer.marshalBinary]
  cases hzw : enc.zw <;>
    by_cases h0 : enc.trailer.postApplyChecksum = 0 <;>
    by_cases hflag : enc.trailer.postApplyChecksum &&& ChecksumFlag = 0 <;>
    by_cases heq : enc.trailer.postApplyChecksum = ChecksumFlag <;>
    first
    | (exfalso; rw [heq] at hflag; exact hflagflag hflag)
    | simp [h0, hflag, heq, hcommit, flag_or_ne_zero, flag_or_and_flag_ne_zero, hfne]

/-- Witness for `encoder_close_commit_zero` at a concrete deletion-file
encoder whose post-apply checksum is exactly `ChecksumFlag`. -/
theorem encoder_close_commit_zero_witness :
    (deletionPageStateEncoder.state = .page ∧
      deletionPageStateEncoder.header.commit = 0) ∧
    (deletionPageStateEncoder.close).2 =
      (if deletionPageStateEncoder.trailer.postApplyChecksum = 0 then
        .error (.wrap .validateTrailer .postApplyRequired)
      else if deletionPageStateEncoder.trailer.postApplyChecksum &&& ChecksumFlag = 0 then
        .error (.wrap .validateTrailer .invalidPostApplyFormat)
      else if deletionPageStateEncoder.trailer.postApplyChecksum = ChecksumFlag then .ok ()
      else .error .postApplyMustBeEmptyForZeroLength) :=
  ⟨⟨by decide, by decide⟩,
    encoder_close_commit_zero deletionPageStateEncoder (by decide) (by decide)⟩

/-- Counterexample to **C6** as stated: a deletion-file encoder whose
post-apply checksum was set to 0 fails `Close` with the trailer-validation
error "post-apply checksum required", not with "post-apply checksum must be
empty for zero-length database". -/
theorem encoder_close_commit_zero_other_error :
    (deletionEncoderZeroPostApply.close).2 =
      .error (.wrap .validateTrailer .postApplyRequired) ∧
    Err.wrap .validateTrailer .postApplyRequired ≠ .postApplyMustBeEmptyForZeroLength := by
  refine ⟨by decide, by decide⟩

/-- **C5** (confirmed).  In a snapshot file, `EncodePage` accepts a page
only if it is the first page and equals 1, or it is the previous page plus
one — except that after `LockPgno - 1` the next page must be `LockPgno + 1`;
other gaps are rejected with the "nonsequential page numbers in snapshot
transaction" error (a distinct skip-lock-page message at the lock
boundary); and a page equal to the lock page itself is rejected in any
file. -/
theorem encodePage_snapshot_ordering :
    (∀ (enc : Encoder) (hdr : PageHeader) (data : Bytes),
      enc.state = .page → enc.header.minTXID = 1 →
      IsValidPageSize enc.header.pageSize = true →
      (((enc.encodePage hdr data).2 = .ok () →
          (enc.prevPgno = 0 ∧ hdr.pgno = 1) ∨
          (enc.prevPgno ≠ 0 ∧
            (if enc.prevPgno = LockPgno enc.header.pageSize - 1 then
              hdr.pgno = LockPgno enc.header.pageSize + 1
            else hdr.pgno = enc.prevPgno + 1))) ∧
        (hdr.pgno ≠ 0 → hdr.pgno ≤ enc.header.commit →
          data.length = enc.header.pageSize →
          hdr.pgno ≠ LockPgno enc.header.pageSize → enc.prevPgno ≠ 0 →
          ((enc.prevPgno = LockPgno enc.header.pageSize - 1 →
              hdr.pgno ≠ LockPgno enc.header.pageSize + 1 →
              (enc.encodePage hdr data).2 =
                .error (.nonseqSnapshotSkipLock enc.prevPgno hdr.pgno)) ∧
            (enc.prevPgno ≠ LockPgno enc.header.pageSize - 1 →
              hdr.pgno ≠ enc.prevPgno + 1 →
              (enc.encodePage hdr data).2 =
                .error (.nonseqSnapshot enc.prevPgno hdr.pgno)))))) ∧
    (∀ (enc : Encoder) (hdr : PageHeader) (data : Bytes),
      hdr.pgno = LockPgno enc.header.pageSize →
      IsValidPageSize enc.header.pageSize = true →
      ∃ e, (enc.encodePage hdr data).2 = .error e) := by
  constructor
  · intro enc hdr data hstate hsnap hps
    have hlock := lockPgno_ge _ hps
    have hsnapb : enc.header.isSnapshot = true := by
      simp [Header.isSnapshot, hsnap]
    constructor
    · intro hok
      rw [Encoder.encodePage] at hok
      rw [if_neg (by rw [hstate]; intro h; cases h)] at hok
      rw [if_neg (by rw [hstate]; simp)] at hok
      by_cases hcommit : hdr.pgno > enc.header.commit
      · rw [if_pos hcommit] at hok
        exact absurd hok (by simp)
      rw [if_neg hcommit] at hok
      cases hval : hdr.validate with
      | some e =>
        rw [hval] at hok
        exact absurd hok (by simp)
      | none =>
        rw [hval] at hok
        by_cases hdata : data.length ≠ enc.header.pageSize
        · rw [if_pos hdata] at hok
          exact absurd hok (by simp)
        rw [if_neg hdata] at hok
        by_cases hlp : hdr.pgno = LockPgno enc.header.pageSize
        · rw [if_pos hlp] at hok
          exact absurd hok (by simp)
        rw [if_neg hlp, if_pos hsnapb] at hok
        by_cases hfirst : enc.prevPgno = 0 ∧ hdr.pgno ≠ 1
        · rw [if_pos hfirst] at hok
          exact absurd hok (by simp)
        rw [if_neg hfirst] at hok
        by_cases hprevlock : enc.prevPgno = LockPgno enc.header.pageSize - 1
        · rw [if_pos hprevlock] at hok
          by_cases hskip : hdr.pgno ≠ enc.prevPgno + 2
          · rw [if_pos hskip] at hok
            exact absurd hok (by simp)
          · right
            rw [not_not] at hskip
            refine ⟨by omega, ?_⟩
            rw [if_pos hprevlock]
            omega
        · rw [if_neg hprevlock] at hok
          by_cases hnseq : enc.prevPgno ≠ 0 ∧ hdr.pgno ≠ enc.prevPgno + 1
          · rw [if_pos hnseq] at hok
            exact absurd hok (by simp)
          · by_cases hprev : enc.prevPgno = 0
            · left
              refine ⟨hprev, ?_⟩
              by_contra hne
              exact hfirst ⟨hprev, hne⟩
            · right
              refine ⟨hprev, ?_⟩
              rw [if_neg hprevlock]
              by_contra hne
              exact hnseq ⟨hprev, hne⟩
    · intro hpz hcommit hdata hlp hprev
      have hval : hdr.validate = none := by
        rw [PageHeader.validate, if_neg hpz]
      constructor
      · intro hprevlock hskip
        rw [Encoder.encodePage]
        rw [if_neg (by rw [hstate]; intro h; cases h)]
        rw [if_neg (by rw [hstate]; simp)]
        rw [if_neg (by omega), hval, if_neg (by omega), if_neg hlp, if_pos hsnapb]
        rw [if_neg (by intro h; exact hprev h.1)]
        rw [if_pos hprevlock, if_pos (by omega)]
      · intro hprevlock hnext
        rw [Encoder.encodePage]
        rw [if_neg (by rw [hstate]; intro h; cases h)]
        rw [if_neg (by rw [hstate]; simp)]
        rw [if_neg (by omega), hval, if_neg (by omega), if_neg hlp, if_pos hsnapb]
        rw [if_neg (by intro h; exact hprev h.1)]
        rw [if_neg hprevlock, if_pos ⟨hprev, hnext⟩]
  · intro enc hdr data hlp hps
    have hlock := lockPgno_ge _ hps
    rw [Encoder.encodePage]
    by_cases h1 : enc.state = .closed
    · rw [if_pos h1]
      exact ⟨_, rfl⟩
    rw [if_neg h1]
    by_cases h2 : enc.state ≠ .page
    · rw [if_pos h2]
      exact ⟨_, rfl⟩
    rw [if_neg h2]
    by_cases h3 : hdr.pgno > enc.header.commit
    · rw [if_pos h3]
      exact ⟨_, rfl⟩
    rw [if_neg h3]
    rw [show hdr.validate = none by rw [PageHeader.validate, if_neg (by omega)]]
    by_cases h4 : data.length ≠ enc.header.pageSize
    · rw [if_pos h4]
      exact ⟨_, rfl⟩
    rw [if_neg h4, if_pos hlp]
    exact ⟨_, rfl⟩

/-- **C2** (corrected, amended claim).  The decoder keeps no running
post-apply checksum: `Decoder.Close` verifies only the `FileChecksum`.  For
a snapshot decoder in the `close` state it succeeds for *every* post-apply
value `p` in the trailer, provided only that the trailer's `FileChecksum`
field matches the hasher state — no comparison with any page-checksum fold
takes place. -/
theorem decoder_close_no_postapply_check (dec : Decoder) (p : Nat) (rest : Bytes)
    (hstate : dec.state = .close) (_hsnap : dec.header.minTXID = 1)
    (hcrc : dec.crc < 2 ^ 64)
    (hr : dec.r = be64 p ++ be64 (ChecksumFlag ||| crcUpd dec.crc (be64 p)) ++ rest) :
    (dec.close).2 = .ok () := by
  have hq : ChecksumFlag ||| crcUpd dec.crc (be64 p) < 2 ^ 64 :=
    flag_or_lt _ (crcUpd_lt _ _ hcrc)
  have hfull : readFull dec.r TrailerSize =
      .ok (be64 p ++ be64 (ChecksumFlag ||| crcUpd dec.crc (be64 p)), rest) := by
    rw [hr]
    exact readFull_append _ _ _ (by simp [be64_length, TrailerSize])
  have hun : Trailer.unmarshalBinary
      (be64 p ++ be64 (ChecksumFlag ||| crcUpd dec.crc (be64 p))) =
      .ok { postApplyChecksum := p % 2 ^ 64,
            fileChecksum := ChecksumFlag ||| crcUpd dec.crc (be64 p) } := by
    rw [Trailer.unmarshalBinary, if_neg (by simp [be64_length, TrailerSize])]
    rw [show (be64 p ++ be64 (ChecksumFlag ||| crcUpd dec.crc (be64 p)) : Bytes)
        = be64 p ++ (be64 (ChecksumFlag ||| crcUpd dec.crc (be64 p)) ++ []) from by simp]
    rw [readBE64_be64, readBE64_at8, Nat.mod_eq_of_lt hq]
  rw [Decoder.close]
  rw [if_neg (by rw [hstate]; intro h; cases h), if_neg (by rw [hstate]; simp)]
  rw [hfull]
  simp only [hun, Decoder.writeToHash, Decoder.checksum]
  rw [show (be64 p ++ be64 (ChecksumFlag ||| crcUpd dec.crc (be64 p))).take
      TrailerChecksumOffset = be64 p from List.take_left' (be64_length p)]
  simp

/-- Witness for `decoder_close_no_postapply_check` at a concrete decoder
whose trailer carries the arbitrary post-apply value 5. -/
theorem decoder_close_no_postapply_check_witness :
    (closeStateSnapshotDecoder.state = .close ∧
      closeStateSnapshotDecoder.header.minTXID = 1 ∧
      closeStateSnapshotDecoder.crc < 2 ^ 64 ∧
      closeStateSnapshotDecoder.r =
        be64 5 ++ be64 (ChecksumFlag ||| crcUpd closeStateSnapshotDecoder.crc (be64 5)) ++ []) ∧
    (closeStateSnapshotDecoder.close).2 = .ok () :=
  ⟨⟨by decide, by decide, by decide, by decide⟩,
    decoder_close_no_postapply_check closeStateSnapshotDecoder 5 []
      (by decide) (by decide) (by decide) (by decide)⟩

set_option maxRecDepth 1000000 in
/-- Counterexample to **C2** as stated: a byte-exact snapshot file whose
trailer's `PostApplyChecksum` differs from the `ChecksumPage` fold over its
decoded pages is decoded and closed *successfully* — no fatal error is
returned. -/
theorem decoder_accepts_wrong_postapply :
    ((newDecoder wrongPostApplyFile).decodeHeader).2 = .ok () ∧
    wrongPostApplyDec1.header.minTXID = 1 ∧
    (wrongPostApplyDec1.decodePage 512).2 =
      .ok ({ pgno := 1 }, List.replicate 512 97) ∧
    (wrongPostApplyDec2.decodePage 512).2 = .error .eof ∧
    (wrongPostApplyDec3.close).2 = .ok () ∧
    (wrongPostApplyDec3.close).1.trailer.postApplyChecksum ≠
      ChecksumFlag ||| ChecksumPage 1 (List.replicate 512 97) := by
  refine ⟨by decide, by decide, by decide, by decide, by decide, by decide⟩

/-- Witness for `encodePage_snapshot_ordering` at a concrete snapshot
encoder (page size 512) and at the lock page of that page size. -/
theorem encodePage_snapshot_ordering_witness :
    (snapshotPageStateEncoder.state = .page ∧
      snapshotPageStateEncoder.header.minTXID = 1 ∧
      IsValidPageSize snapshotPageStateEncoder.header.pageSize = true ∧
      (2097153 : Nat) = LockPgno snapshotPageStateEncoder.header.pageSize) ∧
    ((snapshotPageStateEncoder.encodePage { pgno := 2 } [] ).2 = .ok () →
      (snapshotPageStateEncoder.prevPgno = 0 ∧ (2 : Nat) = 1) ∨
      (snapshotPageStateEncoder.prevPgno ≠ 0 ∧
        (if snapshotPageStateEncoder.prevPgno =
            LockPgno snapshotPageStateEncoder.header.pageSize - 1 then
          (2 : Nat) = LockPgno snapshotPageStateEncoder.header.pageSize + 1
        else (2 : Nat) = snapshotPageStateEncoder.prevPgno + 1))) ∧
    (∃ e, (snapshotPageStateEncoder.encodePage { pgno := 2097153 } []).2 = .error e) :=
  ⟨⟨by decide, by decide, by decide, by decide⟩,
    ((encodePage_snapshot_ordering.1 snapshotPageStateEncoder { pgno := 2 } []
      (by decide) (by decide) (by decide)).1 : _),
    encodePage_snapshot_ordering.2 snapshotPageStateEncoder { pgno := 2097153 } []
      (by decide) (by decide)⟩

/-- **C8** — The compaction merge step: when `fillPageBuffers` refills the
page buffers and reports the pending page number `pgno ≠ 0`, that `pgno` is
the smallest pending page number across the input buffers; a successful
`writePageBuffer` then clears the buffers of *all* inputs holding `pgno`,
emits no page at all when `pgno` exceeds the output header's commit count
(the encoder is unchanged — shrinking databases drop trailing pages), and
otherwise encodes exactly once, with the buffered data of the newest
(highest-index) input holding `pgno`. -/
theorem compactor_merge_step (ctx : Ctx) (inputs filled outInputs : List CompactorInput)
    (bufLen pgno : Nat) (enc outEnc : Encoder)
    (hfill : Compactor.fillPageBuffers ctx inputs bufLen = .ok (filled, pgno))
    (hnz : pgno ≠ 0)
    (hwrite : Compactor.writePageBuffer ctx filled enc pgno = .ok (outInputs, outEnc)) :
    ((∃ inp ∈ filled, inp.bufHdr.pgno = pgno) ∧
        ∀ inp ∈ filled, inp.bufHdr.pgno ≠ 0 → pgno ≤ inp.bufHdr.pgno) ∧
      outInputs = clearBuffers filled pgno ∧
      (enc.header.commit < pgno → outEnc = enc) ∧
      (pgno ≤ enc.header.commit →
        ∃ inp, newestMatch filled pgno = some inp ∧
          enc.encodePage inp.bufHdr inp.bufData = (outEnc, .ok ())) := by
  have hmin : FillMinSpec 0 (filled, pgno) :=
    fillLoop_min bufLen inputs 0 0 (filled, pgno) hfill
  obtain ⟨-, hnzspec⟩ := hmin
  obtain ⟨hex, hall, -⟩ := hnzspec hnz
  have hex2 : ∃ inp ∈ filled, inp.bufHdr.pgno = pgno := by
    rcases hex with hz | hex
    · exact absurd hz hnz
    · exact hex
  obtain ⟨hcl, hskip, -, hsome⟩ :=
    writePageBuffer_spec ctx filled enc pgno outInputs outEnc hwrite
  refine ⟨⟨hex2, hall⟩, hcl, hskip, ?_⟩
  intro hle
  obtain ⟨inp0, hmem, hpg⟩ := hex2
  rcases hfind : newestMatch filled pgno with _ | inp
  · exfalso
    rw [newestMatch, List.find?_eq_none] at hfind
    have := hfind inp0 (List.mem_reverse.mpr hmem)
    simp [hpg] at this
  · exact ⟨inp, rfl, hsome inp hfind hle⟩

/-- Witness for `compactor_merge_step`: two inputs both buffering page 1
(with different data) merged into a tiny snapshot encoder; the newest
input's data `[9, 9, 9, 9]` wins and both buffers come back cleared. -/
theorem compactor_merge_step_witness :
    (Compactor.fillPageBuffers {} mergeStepInputs 4 = .ok (mergeStepInputs, 1) ∧
      (1 : Nat) ≠ 0 ∧
      Compactor.writePageBuffer {} mergeStepInputs mergeStepEncoder 1 =
        .ok (clearBuffers mergeStepInputs 1,
          (mergeStepEncoder.encodePage { pgno := 1 } [9, 9, 9, 9]).1)) ∧
    (((∃ inp ∈ mergeStepInputs, inp.bufHdr.pgno = 1) ∧
        ∀ inp ∈ mergeStepInputs, inp.bufHdr.pgno ≠ 0 → 1 ≤ inp.bufHdr.pgno) ∧
      clearBuffers mergeStepInputs 1 = clearBuffers mergeStepInputs 1 ∧
      (mergeStepEncoder.header.commit < 1 →
        (mergeStepEncoder.encodePage { pgno := 1 } [9, 9, 9, 9]).1 = mergeStepEncoder) ∧
      (1 ≤ mergeStepEncoder.header.commit →
        ∃ inp, newestMatch mergeStepInputs 1 = some inp ∧
          mergeStepEncoder.encodePage inp.bufHdr inp.bufData =
            ((mergeStepEncoder.encodePage { pgno := 1 } [9, 9, 9, 9]).1, .ok ()))) :=
  ⟨⟨by decide, by decide, by decide⟩,
    compactor_merge_step {} mergeStepInputs mergeStepInputs
      (clearBuffers mergeStepInputs 1) 4 1 mergeStepEncoder
      ((mergeStepEncoder.encodePage { pgno := 1 } [9, 9, 9, 9]).1)
      (by decide) (by decide) (by decide)⟩

/-- **C7** — Provenance of the compacted output: on a successful run of
the post-sort compaction pipeline, the output header takes `PageSize`,
`MinTXID`, `Timestamp` and `PreApplyChecksum` from the first input,
`Commit` and `MaxTXID` from the last input, and leaves `NodeID` (and the
WAL fields) zero; the output trailer's `PostApplyChecksum` is exactly the
`PostApplyChecksum` decoded from the last input's trailer. -/
theorem compact_output_provenance (ctx : Ctx) (c c' : Compactor)
    (h : Compactor.compactFromSorted ctx c = (c', none)) :
    c'.enc.header =
      { version := Version
        flags := c.headerFlags
        pageSize := (c.inputs.headD default).dec.header.pageSize
        commit := (c.inputs.getLastD default).dec.header.commit
        minTXID := (c.inputs.headD default).dec.header.minTXID
        maxTXID := (c.inputs.getLastD default).dec.header.maxTXID
        timestamp := (c.inputs.headD default).dec.header.timestamp
        preApplyChecksum := (c.inputs.headD default).dec.header.preApplyChecksum } ∧
    c'.enc.trailer.postApplyChecksum =
      (c'.inputs.getLastD default).dec.trailer.postApplyChecksum := by
  rw [Compactor.compactFromSorted] at h
  split at h
  · rw [Prod.mk.injEq] at h
    exact absurd h.2 (by simp)
  · simp only [] at h
    split at h
    · rw [Prod.mk.injEq] at h
      exact absurd h.2 (by simp)
    · rename_i enc1 u1 hencHdr
      split at h
      · rw [Prod.mk.injEq] at h
        exact absurd h.2 (by simp)
      · rename_i c2 hwpb
        split at h
        · rw [Prod.mk.injEq] at h
          exact absurd h.2 (by simp)
        · rename_i inputs2 hci
          split at h
          · rw [Prod.mk.injEq] at h
            exact absurd h.2 (by simp)
          · rename_i encF uF hclose
            rw [Prod.mk.injEq] at h
            obtain ⟨hc', -⟩ := h
            subst hc'
            have e1 := encodeHeader_ok_header _ _ _ _ hencHdr
            have e2 := writePageBlock_header ctx _ c2 hwpb
            have e3 := close_header
              (c2.enc.setPostApplyChecksum
                (inputs2.getLastD default).dec.trailer.postApplyChecksum)
            rw [hclose] at e3
            have p3 := close_postApply
              (c2.enc.setPostApplyChecksum
                (inputs2.getLastD default).dec.trailer.postApplyChecksum)
            rw [hclose] at p3
            exact ⟨e3.trans (e2.trans e1), p3⟩

set_option maxRecDepth 1000000 in
/-- Witness for `compact_output_provenance`: compacting the single
one-page snapshot file through the post-sort pipeline. -/
theorem compact_output_provenance_witness :
    Compactor.compactFromSorted ⟨none⟩ compactC7In = (compactC7Out, none) ∧
    (compactC7Out.enc.header =
      { version := Version
        flags := compactC7In.headerFlags
        pageSize := (compactC7In.inputs.headD default).dec.header.pageSize
        commit := (compactC7In.inputs.getLastD default).dec.header.commit
        minTXID := (compactC7In.inputs.headD default).dec.header.minTXID
        maxTXID := (compactC7In.inputs.getLastD default).dec.header.maxTXID
        timestamp := (compactC7In.inputs.headD default).dec.header.timestamp
        preApplyChecksum :=
          (compactC7In.inputs.headD default).dec.header.preApplyChecksum } ∧
    compactC7Out.enc.trailer.postApplyChecksum =
      (compactC7Out.inputs.getLastD default).dec.trailer.postApplyChecksum) :=
  ⟨by decide, compact_output_provenance ⟨none⟩ compactC7In compactC7Out (by decide)⟩

/-- **C4** — Round trip of a valid `FileSpec`: `WriteTo` succeeds,
producing the encoded bytes and the spec with only the trailer's
`FileChecksum` resolved by the encoder, and `ReadFrom` on those bytes
returns exactly that same spec — header, pages and `PostApplyChecksum`
unchanged. -/
theorem fileSpec_roundtrip (s : FileSpec) (h : s.valid = true) :
    s.writeTo = .ok ({ s with trailer := resolvedTrailer s }, fileBytes s,
      (bodyBytes s).length + 16) ∧
    FileSpec.readFrom (fileBytes s) =
      .ok ({ s with trailer := resolvedTrailer s }, (bodyBytes s).length + 8) :=
  ⟨writeTo_ok s h, readFrom_ok s h⟩

set_option maxRecDepth 1000000 in
/-- Witness for `fileSpec_roundtrip` at the concrete one-page snapshot
spec. -/
theorem fileSpec_roundtrip_witness :
    onePageSpec.valid = true ∧
    (onePageSpec.writeTo =
        .ok ({ onePageSpec with trailer := resolvedTrailer onePageSpec },
          fileBytes onePageSpec, (bodyBytes onePageSpec).length + 16) ∧
      FileSpec.readFrom (fileBytes onePageSpec) =
        .ok ({ onePageSpec with trailer := resolvedTrailer onePageSpec },
          (bodyBytes onePageSpec).length + 8)) :=
  ⟨by decide, fileSpec_roundtrip onePageSpec (by decide)⟩

end Ltx
